import Mathlib

/-!
# okta-pkce-login: the PKCE login flow of `cmd/root.go`

A shallow embedding of `cmd/root.go` and of the Go library functions it calls
(`uuid`, `crypto/sha256`, `encoding/base64`, `net/url`, `encoding/json`), followed by
the theorems that settle the claims of the specification.

Go strings are byte sequences, so they are modelled as lists of bytes.
-/

set_option maxRecDepth 8000

namespace OktaPkce

/-! ## Bytes and Go strings -/

/-- One byte, the element type of a Go `string` or `[]byte`. -/
abbrev Byte := Fin 256

/-- A Go `string`: an immutable sequence of bytes. -/
abbrev GoString := List Byte

/-- The UTF-8 bytes of a source-code string literal. -/
def utf8 (s : String) : GoString :=
  s.toList.flatMap (fun c => (String.utf8EncodeChar c).map (fun b => (⟨b.toNat, b.toNat_lt⟩ : Byte)))

/-- The byte of an ASCII character constant, as in the Go constant `'-'`. -/
def ascii (c : Char) : Byte := ⟨c.toNat % 256, Nat.mod_lt _ (by decide)⟩

/-! ## `encoding/hex` and `github.com/google/uuid` -/

/-- The table `hextable` of `encoding/hex`. -/
def hextable : GoString := utf8 "0123456789abcdef"

/-- Function `hex.Encode`: every source byte `v` gives `hextable[v>>4]`, `hextable[v&0x0f]`. -/
def hexEncode : List Byte → GoString
  | [] => []
  | v :: rest =>
    hextable.getD (v.val >>> 4) 0 :: hextable.getD (v.val &&& 0x0f) 0 :: hexEncode rest

/-- The array type `UUID = [16]byte`. -/
abbrev UUID := Fin 16 → Byte

/-- Function `uuid.New` (`NewRandom`): sixteen bytes `r` read from the random source, with the
version (4) and variant (10) bits forced. -/
def uuidNew (r : Fin 16 → Byte) : UUID := fun i =>
  if i = 6 then ⟨((r i).val &&& 0x0f ||| 0x40) % 256, Nat.mod_lt _ (by decide)⟩
  else if i = 8 then ⟨((r i).val &&& 0x3f ||| 0x80) % 256, Nat.mod_lt _ (by decide)⟩
  else r i

/-- The slice `uuid[lo:hi]`. -/
def uuidSlice (u : UUID) (lo hi : Nat) : List Byte :=
  ((List.ofFn u).take hi).drop lo

/-- Method `UUID.String` (`encodeHex`): the form `xxxxxxxx-xxxx-xxxx-xxxx-xxxxxxxxxxxx`. -/
def uuidString (u : UUID) : GoString :=
  hexEncode (uuidSlice u 0 4) ++ [ascii '-'] ++
  hexEncode (uuidSlice u 4 6) ++ [ascii '-'] ++
  hexEncode (uuidSlice u 6 8) ++ [ascii '-'] ++
  hexEncode (uuidSlice u 8 10) ++ [ascii '-'] ++
  hexEncode (uuidSlice u 10 16)

/-! ## `crypto/sha256` -/

/-- The round constants `_K` of SHA-256. -/
def sha256K : List Nat :=
  [0x428a2f98, 0x71374491, 0xb5c0fbcf, 0xe9b5dba5, 0x3956c25b, 0x59f111f1, 0x923f82a4, 0xab1c5ed5,
   0xd807aa98, 0x12835b01, 0x243185be, 0x550c7dc3, 0x72be5d74, 0x80deb1fe, 0x9bdc06a7, 0xc19bf174,
   0xe49b69c1, 0xefbe4786, 0x0fc19dc6, 0x240ca1cc, 0x2de92c6f, 0x4a7484aa, 0x5cb0a9dc, 0x76f988da,
   0x983e5152, 0xa831c66d, 0xb00327c8, 0xbf597fc7, 0xc6e00bf3, 0xd5a79147, 0x06ca6351, 0x14292967,
   0x27b70a85, 0x2e1b2138, 0x4d2c6dfc, 0x53380d13, 0x650a7354, 0x766a0abb, 0x81c2c92e, 0x92722c85,
   0xa2bfe8a1, 0xa81a664b, 0xc24b8b70, 0xc76c51a3, 0xd192e819, 0xd6990624, 0xf40e3585, 0x106aa070,
   0x19a4c116, 0x1e376c08, 0x2748774c, 0x34b0bcb5, 0x391c0cb3, 0x4ed8aa4a, 0x5b9cca4f, 0x682e6ff3,
   0x748f82ee, 0x78a5636f, 0x84c87814, 0x8cc70208, 0x90befffa, 0xa4506ceb, 0xbef9a3f7, 0xc67178f2]

/-- The initial hash value of SHA-256. -/
def sha256Init : List Nat :=
  [0x6a09e667, 0xbb67ae85, 0x3c6ef372, 0xa54ff53a, 0x510e527f, 0x9b05688c, 0x1f83d9ab, 0x5be0cd19]

/-- Rotation `bits.RotateLeft32(x, -n)` of a 32-bit word. -/
def rotr32 (x n : Nat) : Nat := ((x >>> n) ||| (x <<< (32 - n))) % 2 ^ 32

/-- Addition of 32-bit words. -/
def add32 (x y : Nat) : Nat := (x + y) % 2 ^ 32

/-- Complement of a 32-bit word. -/
def not32 (x : Nat) : Nat := 2 ^ 32 - 1 - x % 2 ^ 32

/-- The padded message: the byte `0x80`, zero bytes up to 56 modulo 64, and the bit length as
a big-endian 64-bit integer. -/
def sha256Pad (msg : List Byte) : List Nat :=
  let len := msg.length
  let bits := (len * 8) % 2 ^ 64
  msg.map (fun b => b.val) ++ [0x80] ++ List.replicate ((119 - len % 64) % 64) 0 ++
    (List.range 8).map (fun i => (bits >>> (8 * (7 - i))) % 256)

/-- Big-endian 32-bit words of a byte sequence whose length is a multiple of four. -/
def beWords : List Nat → List Nat
  | a :: b :: c :: d :: rest => (a <<< 24 ||| b <<< 16 ||| c <<< 8 ||| d) :: beWords rest
  | _ => []

/-- The message schedule: `n` further words appended to the words `w` (newest first). -/
def sha256Schedule : Nat → List Nat → List Nat
  | 0, w => w
  | n + 1, w =>
    let v1 := w.getD 1 0
    let v2 := w.getD 14 0
    let t1 := rotr32 v1 17 ^^^ rotr32 v1 19 ^^^ (v1 >>> 10)
    let t2 := rotr32 v2 7 ^^^ rotr32 v2 18 ^^^ (v2 >>> 3)
    sha256Schedule n (add32 (add32 (add32 t1 (w.getD 6 0)) t2) (w.getD 15 0) :: w)

/-- One round of the compression function on the working variables `a..h`. -/
def sha256Round (s : List Nat) (kw : Nat × Nat) : List Nat :=
  match s with
  | [a, b, c, d, e, f, g, h] =>
    let t1 := add32 (add32 (add32 (add32 h (rotr32 e 6 ^^^ rotr32 e 11 ^^^ rotr32 e 25))
      ((e &&& f) ^^^ (not32 e &&& g))) kw.1) kw.2
    let t2 := add32 (rotr32 a 2 ^^^ rotr32 a 13 ^^^ rotr32 a 22)
      ((a &&& b) ^^^ (a &&& c) ^^^ (b &&& c))
    [add32 t1 t2, a, b, c, add32 d t1, e, f, g]
  | _ => s

/-- Function `block` on one 64-byte chunk: the new chaining value. -/
def sha256Block (h : List Nat) (chunk : List Nat) : List Nat :=
  let w := (sha256Schedule 48 (beWords chunk).reverse).reverse
  List.zipWith add32 h ((sha256K.zip w).foldl sha256Round h)

/-- All chunks of a padded message, processed in order (`fuel` bounds the number of chunks). -/
def sha256Blocks : Nat → List Nat → List Nat → List Nat
  | 0, h, _ => h
  | fuel + 1, h, data =>
    if data.length < 64 then h
    else sha256Blocks fuel (sha256Block h (data.take 64)) (data.drop 64)

/-- Function `sha256.Sum256`: the 32-byte digest of `msg`. -/
def sha256 (msg : List Byte) : List Byte :=
  let padded := sha256Pad msg
  (sha256Blocks (padded.length / 64 + 1) sha256Init padded).flatMap (fun w =>
    [Fin.ofNat (w >>> 24), Fin.ofNat (w >>> 16), Fin.ofNat (w >>> 8), Fin.ofNat w])

/-! ## `encoding/base64`, `RawURLEncoding` -/

/-- The URL-safe alphabet `encodeURL`. -/
def encodeURL : GoString :=
  utf8 "ABCDEFGHIJKLMNOPQRSTUVWXYZabcdefghijklmnopqrstuvwxyz0123456789-_"

/-- Lookup `enc.encode[i]`. -/
def b64Char (i : Nat) : Byte := encodeURL.getD i 0

/-- Method `Encoding.Encode` for `RawURLEncoding` (no padding): whole groups of three bytes
give four characters; a remainder of two bytes gives three, of one byte gives two. -/
def rawURLEncode : List Byte → GoString
  | a :: b :: c :: rest =>
    let val := a.val <<< 16 ||| b.val <<< 8 ||| c.val
    b64Char (val >>> 18 &&& 0x3F) :: b64Char (val >>> 12 &&& 0x3F) ::
      b64Char (val >>> 6 &&& 0x3F) :: b64Char (val &&& 0x3F) :: rawURLEncode rest
  | [a, b] =>
    let val := a.val <<< 16 ||| b.val <<< 8
    [b64Char (val >>> 18 &&& 0x3F), b64Char (val >>> 12 &&& 0x3F), b64Char (val >>> 6 &&& 0x3F)]
  | [a] =>
    let val := a.val <<< 16
    [b64Char (val >>> 18 &&& 0x3F), b64Char (val >>> 12 &&& 0x3F)]
  | [] => []

/-! ## `generateCodeChallenge` -/

/-- Function `generateCodeChallenge`, given the random bytes `r1`, `r2` that the two calls of
`uuid.New` read: returns `(challenge, verifier)`. -/
def generateCodeChallenge (r1 r2 : Fin 16 → Byte) : GoString × GoString :=
  let codeVerifier := uuidString (uuidNew r1) ++ uuidString (uuidNew r2)
  let hash := sha256 codeVerifier
  (rawURLEncode hash, codeVerifier)


/-! ## The specification's transforms -/

/-- The unreserved characters of a URL: ASCII letters, digits, `-`, `.`, `_`, `~`. -/
def isUnreserved (c : Byte) : Bool :=
  (ascii 'a' ≤ c && c ≤ ascii 'z') || (ascii 'A' ≤ c && c ≤ ascii 'Z') ||
  (ascii '0' ≤ c && c ≤ ascii '9') ||
  c == ascii '-' || c == ascii '.' || c == ascii '_' || c == ascii '~'

/-- The eight bits of a byte, most significant first, each `0` or `1`. -/
def bitsOfByte (b : Byte) : List Nat :=
  [b.val / 128 % 2, b.val / 64 % 2, b.val / 32 % 2, b.val / 16 % 2,
   b.val / 8 % 2, b.val / 4 % 2, b.val / 2 % 2, b.val % 2]

/-- The number a sequence of bits denotes, most significant first. -/
def bitsToNat (bs : List Nat) : Nat := bs.foldl (fun acc b => 2 * acc + b) 0

/-- The 6-bit groups of a bit stream, left to right; a final group that is short is filled
with zero bits on the right. -/
def sextets : List Nat → List Nat
  | b0 :: b1 :: b2 :: b3 :: b4 :: b5 :: rest => bitsToNat [b0, b1, b2, b3, b4, b5] :: sextets rest
  | [] => []
  | short => [bitsToNat (short ++ List.replicate (6 - short.length) 0)]

/-- The encoding `base64url_nopad` of the specification: the input's bit stream cut into
6-bit groups, each group indexing the URL-safe alphabet, without `=` padding. -/
def base64urlNoPad (data : List Byte) : GoString :=
  (sextets (data.flatMap bitsOfByte)).map b64Char


/-! ## `float64` and `strconv` -/

/-- A finite `float64`: the number `mant * 2^exp`, negated when `neg`. The values produced
below are in normal form: zero is `mant = 0, exp = 0`; otherwise `2^52 ≤ mant < 2^53` with
`-1074 ≤ exp ≤ 971`, or `mant < 2^52` with `exp = -1074` (subnormal). -/
structure Float64 where
  neg : Bool
  mant : Nat
  exp : Int
  deriving DecidableEq

/-- The quotient `num / den` rounded to the nearest integer, ties to the even one. -/
def roundHalfEven (num den : Nat) : Nat :=
  if 2 * (num % den) > den then num / den + 1
  else if 2 * (num % den) < den then num / den
  else if (num / den) % 2 = 0 then num / den
  else num / den + 1

/-- The position of the highest set bit: `⌊log2 n⌋` for `n > 0` (`fuel` at least that). -/
def floorLog2 : Nat → Nat → Nat
  | 0, _ => 0
  | fuel + 1, n => if n ≥ 2 then floorLog2 fuel (n / 2) + 1 else 0

/-- The `float64` nearest to the positive rational `num / den` under IEEE 754 rounding to
nearest, ties to even, as mantissa and exponent; `none` when the result is beyond the largest
finite value (`strconv.ParseFloat` then returns `ErrRange`). A value that underflows gives a
subnormal or zero, without error. -/
def nearestFloat (num den : Nat) : Option (Nat × Int) :=
  let b : Int := (floorLog2 num num : Int) - (floorLog2 den den : Int)
  let atLeast : Bool :=
    if b ≥ 0 then decide (den * 2 ^ b.toNat ≤ num) else decide (den ≤ num * 2 ^ (-b).toNat)
  let fl : Int := if atLeast then b else b - 1
  let e : Int := max (fl - 52) (-1074)
  let m : Nat := roundHalfEven (num * 2 ^ (-e).toNat) (den * 2 ^ e.toNat)
  if m = 2 ^ 53 then (if e + 1 > 971 then none else some (2 ^ 52, e + 1))
  else if e > 971 then none
  else if m = 0 then some (0, 0)
  else some (m, e)

/-- The decimal digits of `n`, most significant first (`fuel` at least the number of digits);
no digit for zero. -/
def digitsOf : Nat → Nat → GoString
  | 0, _ => []
  | fuel + 1, n => if n = 0 then [] else digitsOf fuel (n / 10) ++ [Fin.ofNat (48 + n % 10)]

/-- The number `n * 10^k` without trailing zeros in `n`. -/
def trimZeros : Nat → Nat → Int → Nat × Int
  | 0, n, k => (n, k)
  | fuel + 1, n, k => if n ≠ 0 ∧ n % 10 = 0 then trimZeros fuel (n / 10) (k + 1) else (n, k)

/-- The search of `strconv` for the shortest decimal that identifies a `float64`, over the
decimal positions `10^k` from `k` downwards. The value is `x / den`, the halfway points to
its neighbours are `lo / den` and `hi / den`, and these bounds belong to the interval when
`incl`. At the first position where the value cut off at that position, or that plus one
unit, lies in the interval, that number is taken; when both do, the nearer one (ties to
even). The result is `(n, k)`, standing for `n * 10^k`. -/
def shortestSearch (x lo hi den : Nat) (incl : Bool) : Nat → Int → Nat × Int
  | 0, k => (0, k)
  | fuel + 1, k =>
    let d := den * 10 ^ k.toNat
    let x' := x * 10 ^ (-k).toNat
    let lo' := lo * 10 ^ (-k).toNat
    let hi' := hi * 10 ^ (-k).toNat
    let q := x' / d
    let okdown : Bool := decide (lo' < q * d) || (incl && decide (q * d = lo'))
    let okup : Bool := decide ((q + 1) * d < hi') || (incl && decide ((q + 1) * d = hi'))
    if okdown && okup then (roundHalfEven x' d, k)
    else if okdown then (q, k)
    else if okup then (q + 1, k)
    else shortestSearch x lo hi den incl fuel (k - 1)

/-- The shortest decimal `n * 10^k` that `strconv.ParseFloat` reads back as the positive
`float64` `mant * 2^exp` (`roundShortest`): the interval runs between the halfway points to
the neighbouring values, the lower one being nearer when `mant` is a power of two, and
includes them when `mant` is even. -/
def shortestDecimal (mant : Nat) (exp : Int) : Nat × Int :=
  let lo : Nat := if mant = 2 ^ 52 ∧ exp > -1074 then 4 * mant - 1 else 4 * mant - 2
  let up : Nat := 2 ^ (exp - 2).toNat
  let p := shortestSearch (4 * mant * up) (lo * up) ((4 * mant + 2) * up)
    (2 ^ (2 - exp).toNat) (mant % 2 = 0) 700 310
  trimZeros 400 p.1 p.2

/-- Whether `mant * 2^exp < mant2 * 2^exp2`. -/
def floatLt (mant : Nat) (exp : Int) (mant2 : Nat) (exp2 : Int) : Bool :=
  decide (mant * 2 ^ (exp - exp2).toNat < mant2 * 2 ^ (exp2 - exp).toNat)

/-- The exponent part of format `e` after the clean-up of `encoding/json`: a sign and the
exponent, with one digit below ten (`e-07` becomes `e-7`). -/
def exponentText (e : Int) : GoString :=
  ascii 'e' :: (if e < 0 then ascii '-' else ascii '+') ::
    (if e.natAbs = 0 then [ascii '0'] else digitsOf 400 e.natAbs)

/-- Format `e` of `strconv` with the shortest digits `ds` and decimal point position `dp`
(the value is `0.ds * 10^dp`). -/
def formatE (ds : GoString) (dp : Int) : GoString :=
  match ds with
  | [] => ascii '0' :: exponentText 0
  | d :: rest => (if rest = [] then [d] else d :: ascii '.' :: rest) ++ exponentText (dp - 1)

/-- Format `f` of `strconv` with the shortest digits `ds` and decimal point position `dp`. -/
def formatF (ds : GoString) (dp : Int) : GoString :=
  let intPart : GoString :=
    if dp > 0 then ds.take dp.toNat ++ List.replicate (dp.toNat - ds.length) (ascii '0')
    else [ascii '0']
  let frac : GoString := List.replicate (-dp).toNat (ascii '0') ++ ds.drop dp.toNat
  if (ds.length : Int) > dp then intPart ++ ascii '.' :: frac else intPart

/-- A `float64` as `json.Marshal` writes it (`floatEncoder`): `strconv.AppendFloat` with the
shortest digits, in format `e` when the magnitude is below `1e-6` or at least `1e21` and in
format `f` otherwise. -/
def formatFloat (f : Float64) : GoString :=
  let sign : GoString := if f.neg then [ascii '-'] else []
  if f.mant = 0 then sign ++ [ascii '0']
  else
    let p := shortestDecimal f.mant f.exp
    let ds := digitsOf 400 p.1
    let dp : Int := (ds.length : Int) + p.2
    let small : Bool :=
      match nearestFloat 1 (10 ^ 6) with
      | some t => floatLt f.mant f.exp t.1 t.2
      | none => false
    let large : Bool := !floatLt f.mant f.exp (10 ^ 21) 0
    if small || large then sign ++ formatE ds dp else sign ++ formatF ds dp

/-! ## Results of Go calls -/

/-- How a Go function call ends: it returns a value, the process is ended by `os.Exit`
(reached through `log.Fatal`), or a run-time panic starts. -/
inductive Outcome (α : Type) where
  | ret (a : α)
  | exit (code : Nat)
  | panic
  deriving DecidableEq, Repr

/-! ## `net/url` -/

/-- Function `shouldEscape(c, encodeQueryComponent)`: letters, digits and `-_.~` are kept;
the reserved characters `$&+,/:;=?@` and every other byte are escaped. -/
def shouldEscape (c : Byte) : Bool :=
  if (ascii 'a' ≤ c && c ≤ ascii 'z') || (ascii 'A' ≤ c && c ≤ ascii 'Z') ||
      (ascii '0' ≤ c && c ≤ ascii '9') then false
  else if c == ascii '-' || c == ascii '_' || c == ascii '.' || c == ascii '~' then false
  else true

/-- The table `upperhex` of `net/url`. -/
def upperhex : GoString := utf8 "0123456789ABCDEF"

/-- Function `url.QueryEscape`: a space becomes `+`, a byte to escape becomes `%XX`. -/
def queryEscape : GoString → GoString
  | [] => []
  | c :: rest =>
    if c = ascii ' ' then ascii '+' :: queryEscape rest
    else if shouldEscape c then
      ascii '%' :: upperhex.getD (c.val >>> 4) 0 :: upperhex.getD (c.val &&& 15) 0 ::
        queryEscape rest
    else c :: queryEscape rest

/-- Function `ishex` of `net/url`. -/
def ishex (c : Byte) : Bool :=
  (ascii '0' ≤ c && c ≤ ascii '9') || (ascii 'a' ≤ c && c ≤ ascii 'f') ||
  (ascii 'A' ≤ c && c ≤ ascii 'F')

/-- Function `unhex` of `net/url`. -/
def unhex (c : Byte) : Nat :=
  if ascii '0' ≤ c && c ≤ ascii '9' then c.val - (ascii '0').val
  else if ascii 'a' ≤ c && c ≤ ascii 'f' then c.val - (ascii 'a').val + 10
  else if ascii 'A' ≤ c && c ≤ ascii 'F' then c.val - (ascii 'A').val + 10
  else 0

/-- Function `url.QueryUnescape`: `%XX` becomes the byte `XX`, `+` becomes a space; `none` is
the `EscapeError` returned when a `%` is not followed by two hexadecimal digits. -/
def queryUnescape : GoString → Option GoString
  | [] => some []
  | c :: rest =>
    if c = ascii '%' then
      match rest with
      | h1 :: h2 :: rest2 =>
        if ishex h1 && ishex h2 then
          (queryUnescape rest2).map (fun t => Fin.ofNat (unhex h1 <<< 4 ||| unhex h2) :: t)
        else none
      | _ => none
    else if c = ascii '+' then (queryUnescape rest).map (fun t => ascii ' ' :: t)
    else (queryUnescape rest).map (fun t => c :: t)

/-- The pieces of `s` between occurrences of `sep`; the successive `strings.Cut(query, "&")`
of `parseQuery` walk through these pieces. -/
def splitOn (sep : Byte) : GoString → List GoString
  | [] => [[]]
  | c :: rest =>
    if c = sep then [] :: splitOn sep rest
    else
      match splitOn sep rest with
      | seg :: segs => (c :: seg) :: segs
      | [] => [[c]]

/-- Function `strings.Cut(s, sep)` for a one-byte separator: the text before the first `sep`
and the text after it (empty when `sep` does not occur). -/
def cut (sep : Byte) : GoString → GoString × GoString
  | [] => ([], [])
  | c :: rest =>
    if c = sep then ([], rest)
    else ((cut sep rest).1.cons c, (cut sep rest).2)

/-- The type `url.Values`, a `map[string][]string`: each key once, with its values in the
order they were added. -/
abbrev Values := List (GoString × List GoString)

/-- The statement `m[key] = append(m[key], value)`. -/
def valuesAdd : Values → GoString → GoString → Values
  | [], key, value => [(key, [value])]
  | (k, vs) :: m, key, value =>
    if k = key then (k, vs ++ [value]) :: m else (k, vs) :: valuesAdd m key value

/-- Method `Values.Get`: the first value of `key`, or the empty string. -/
def valuesGet : Values → GoString → GoString
  | [], _ => []
  | (k, vs) :: m, key => if k = key then vs.headD [] else valuesGet m key

/-- One turn of the loop of `parseQuery` on the piece `key`: the map and the first error seen
so far (`true` when there is one). A piece with a semicolon is an error and is skipped, an
empty piece is skipped, a piece whose key or value does not unescape is an error. -/
def parseQueryStep (acc : Values × Bool) (key : GoString) : Values × Bool :=
  if ascii ';' ∈ key then (acc.1, true)
  else if key = [] then acc
  else
    match queryUnescape (cut (ascii '=') key).1 with
    | none => (acc.1, true)
    | some k =>
      match queryUnescape (cut (ascii '=') key).2 with
      | none => (acc.1, true)
      | some v => (valuesAdd acc.1 k v, acc.2)

/-- Function `url.ParseQuery`: the values parsed and whether an error is returned with them. -/
def parseQuery (query : GoString) : Values × Bool :=
  (splitOn (ascii '&') query).foldl parseQueryStep ([], false)

/-! ## `buildAuthorizeUrl` -/

/-- The loop of `buildAuthorizeUrl` over `scopes[1:]`. -/
def appendScopes (scopesString : GoString) : List GoString → GoString
  | [] => scopesString
  | s :: rest => appendScopes (scopesString ++ utf8 "%20" ++ queryEscape s) rest

/-- Function `buildAuthorizeUrl`, given the random bytes `r` read by `uuid.New`: returns
`(url, state)`; `scopes[0]` panics on an empty slice. -/
def buildAuthorizeUrl (r : Fin 16 → Byte) (clientid issuer redirecturi codeChallenge : GoString)
    (scopes : List GoString) : Outcome (GoString × GoString) :=
  match scopes with
  | [] => .panic
  | s0 :: rest =>
    let scopesString := appendScopes (queryEscape s0) rest
    let state := uuidString (uuidNew r)
    .ret (issuer ++ utf8 "/authorize?" ++
      utf8 "response_type=code" ++
      utf8 "&client_id=" ++ clientid ++
      utf8 "&redirect_uri=" ++ queryEscape redirecturi ++
      utf8 "&code_challenge_method=S256" ++
      utf8 "&code_challenge=" ++ codeChallenge ++
      utf8 "&scope=" ++ scopesString ++
      utf8 "&state=" ++ state, state)

/-! ## The specification's reading of a query string -/

/-- The scope list joined by single spaces, in order. -/
def joinScopes : List GoString → GoString
  | [] => []
  | [s] => s
  | s :: rest => s ++ ascii ' ' :: joinScopes rest

/-- A byte that stands for itself in a query string: not a separator `&` or `;` and not part
of an escape (`%`, `+`). -/
def queryPlain (c : Byte) : Bool :=
  !(c == ascii '&' || c == ascii ';' || c == ascii '%' || c == ascii '+')

/-- A well-formed parameter `key=raw`: the key is plain and has no `=`, the raw value has no
separator and unescapes to `val`. -/
structure GoodParam (key raw val : GoString) : Prop where
  keyPlain : ∀ c ∈ key, queryPlain c = true ∧ c ≠ ascii '='
  rawNoSep : ∀ c ∈ raw, c ≠ ascii '&' ∧ c ≠ ascii ';'
  decodes : queryUnescape raw = some val

/-- The query text `k1=v1&k2=v2&...` of a list of parameters with their raw values. -/
def queryText : List (GoString × GoString) → GoString
  | [] => []
  | (k, v) :: rest =>
    match rest with
    | [] => k ++ ascii '=' :: v
    | _ :: _ => k ++ ascii '=' :: v ++ ascii '&' :: queryText rest

/-- The seven parameters of the authorization request, with the values a server reads. -/
def authorizeParams (clientid redirecturi codeChallenge scope state : GoString) : Values :=
  [(utf8 "response_type", [utf8 "code"]),
   (utf8 "client_id", [clientid]),
   (utf8 "redirect_uri", [redirecturi]),
   (utf8 "code_challenge_method", [utf8 "S256"]),
   (utf8 "code_challenge", [codeChallenge]),
   (utf8 "scope", [scope]),
   (utf8 "state", [state])]

/-! ## `encoding/json`: values -/

/-- A value of type `interface{}` as `json.Unmarshal` stores it: `nil`, `bool`, `float64`,
`string`, `[]interface{}` or `map[string]interface{}`. -/
inductive JVal where
  | null
  | bool (b : Bool)
  | number (f : Float64)
  | string (s : GoString)
  | array (elems : List JVal)
  | object (members : List (GoString × JVal))

/-- The contents of a non-nil `map[string]interface{}`: each key once, keys in increasing
byte order (the order in which `json.Marshal` writes them). -/
abbrev JMap := List (GoString × JVal)

/-- Comparison `a < b` of Go strings, byte by byte. -/
def strLt : GoString → GoString → Bool
  | [], [] => false
  | [], _ :: _ => true
  | _ :: _, [] => false
  | a :: as, b :: bs => if a < b then true else if b < a then false else strLt as bs

/-- The statement `m[key] = v`. -/
def mapSet : JMap → GoString → JVal → JMap
  | [], key, v => [(key, v)]
  | (k, x) :: m, key, v =>
    if key = k then (k, v) :: m
    else if strLt key k then (key, v) :: (k, x) :: m
    else (k, x) :: mapSet m key v

/-- The expression `m[key]`: `none` is the nil interface value of an absent key. -/
def mapGet : JMap → GoString → Option JVal
  | [], _ => none
  | (k, x) :: m, key => if k = key then some x else mapGet m key

/-! ## `encoding/json`: decoding -/

/-- The white space of JSON. -/
def isSpace (c : Byte) : Bool :=
  c == ascii ' ' || c == ascii '\t' || c == ascii '\r' || c == ascii '\n'

/-- The input after its leading white space. -/
def skipSpace : GoString → GoString
  | [] => []
  | c :: rest => if isSpace c then skipSpace rest else c :: rest

/-- A decimal digit. -/
def isDigit (c : Byte) : Bool := ascii '0' ≤ c && c ≤ ascii '9'

/-- The leading digits of the input, and what follows them. -/
def takeDigits : GoString → GoString × GoString
  | [] => ([], [])
  | c :: rest =>
    if isDigit c then ((takeDigits rest).1.cons c, (takeDigits rest).2) else ([], c :: rest)

/-- The integer part of a number: `0`, or a digit `1..9` followed by digits. -/
def scanInt : GoString → Option (GoString × GoString)
  | [] => none
  | c :: rest =>
    if c = ascii '0' then some ([c], rest)
    else if isDigit c then some ((takeDigits rest).1.cons c, (takeDigits rest).2)
    else none

/-- The optional fraction of a number: `.` and at least one digit. -/
def scanFrac : GoString → Option (GoString × GoString)
  | [] => some ([], [])
  | c :: rest =>
    if c = ascii '.' then
      if (takeDigits rest).1 = [] then none
      else some ((takeDigits rest).1.cons c, (takeDigits rest).2)
    else some ([], c :: rest)

/-- The optional sign of an exponent. -/
def scanSign : GoString → GoString × GoString
  | [] => ([], [])
  | c :: rest => if c = ascii '+' ∨ c = ascii '-' then ([c], rest) else ([], c :: rest)

/-- The optional exponent of a number: `e` or `E`, an optional sign, at least one digit. -/
def scanExp : GoString → Option (GoString × GoString)
  | [] => some ([], [])
  | c :: rest =>
    if c = ascii 'e' ∨ c = ascii 'E' then
      if (takeDigits (scanSign rest).2).1 = [] then none
      else some (c :: (scanSign rest).1 ++ (takeDigits (scanSign rest).2).1,
        (takeDigits (scanSign rest).2).2)
    else some ([], c :: rest)

/-- The optional minus sign of a number. -/
def scanMinus : GoString → GoString × GoString
  | [] => ([], [])
  | c :: rest => if c = ascii '-' then ([c], rest) else ([], c :: rest)

/-- A number literal at the head of the input, by the scanner's grammar, and the rest. -/
def scanNumber (s : GoString) : Option (GoString × GoString) :=
  match scanInt (scanMinus s).2 with
  | none => none
  | some (i, s2) =>
    match scanFrac s2 with
    | none => none
    | some (f, s3) =>
      match scanExp s3 with
      | none => none
      | some (e, s4) => some ((scanMinus s).1 ++ i ++ f ++ e, s4)

/-- The number a string of decimal digits denotes. -/
def natOfDigits (ds : GoString) : Nat :=
  ds.foldl (fun a c => 10 * a + (c.val - 48)) 0

/-- The digits of the fraction of a number literal, from the text after its integer part. -/
def fractionDigits : GoString → GoString
  | [] => []
  | c :: rest => if c = ascii '.' then (takeDigits rest).1 else []

/-- The text after the fraction of a number literal, from the text after its integer part. -/
def afterFraction : GoString → GoString
  | [] => []
  | c :: rest => if c = ascii '.' then (takeDigits rest).2 else c :: rest

/-- The exponent a number literal ends with, from the text after its fraction; zero when
there is none. -/
def exponentValue : GoString → Int
  | [] => 0
  | c :: rest =>
    if c = ascii 'e' ∨ c = ascii 'E' then
      if (scanSign rest).1 = [ascii '-'] then
        -((natOfDigits (takeDigits (scanSign rest).2).1 : Nat) : Int)
      else ((natOfDigits (takeDigits (scanSign rest).2).1 : Nat) : Int)
    else 0

/-- Function `strconv.ParseFloat(lit, 64)` on a literal of the scanner's grammar: the literal
stands for `digits * 10^e`, which is rounded to the nearest `float64`; `none` is the range
error for a value beyond the largest finite one. (A value of `10^310` or more is beyond it
and one below `10^-330` rounds to zero; these are decided before the power is computed.) -/
def parseFloat (lit : GoString) : Option Float64 :=
  let neg : Bool := decide ((scanMinus lit).1 ≠ [])
  let intDigits := (takeDigits (scanMinus lit).2).1
  let afterInt := (takeDigits (scanMinus lit).2).2
  let fracDigits := fractionDigits afterInt
  let digits := natOfDigits (intDigits ++ fracDigits)
  let e : Int := exponentValue (afterFraction afterInt) - (fracDigits.length : Int)
  let size : Int := ((digitsOf (intDigits ++ fracDigits).length digits).length : Int) + e
  if digits = 0 then some ⟨neg, 0, 0⟩
  else if size > 310 then none
  else if size < -330 then some ⟨neg, 0, 0⟩
  else (nearestFloat (digits * 10 ^ e.toNat) (10 ^ (-e).toNat)).map (fun p => ⟨neg, p.1, p.2⟩)

/-- The value of a hexadecimal digit. -/
def hexVal (c : Byte) : Option Nat :=
  if ascii '0' ≤ c && c ≤ ascii '9' then some (c.val - (ascii '0').val)
  else if ascii 'a' ≤ c && c ≤ ascii 'f' then some (c.val - (ascii 'a').val + 10)
  else if ascii 'A' ≤ c && c ≤ ascii 'F' then some (c.val - (ascii 'A').val + 10)
  else none

/-- Function `getu4` after the `\u`: the number of four hexadecimal digits, and the rest. -/
def hex4 : GoString → Option (Nat × GoString)
  | a :: b :: c :: d :: rest =>
    match hexVal a, hexVal b, hexVal c, hexVal d with
    | some x, some y, some z, some w => some (x * 4096 + y * 256 + z * 16 + w, rest)
    | _, _, _, _ => none
  | _ => none

/-- The bytes of U+FFFD, the replacement character. -/
def replacementChar : GoString := [0xEF, 0xBF, 0xBD]

/-- Function `utf8.EncodeRune`; a surrogate or a value above U+10FFFF gives U+FFFD. -/
def encodeRune (r : Nat) : GoString :=
  if r ≤ 0x7F then [Fin.ofNat r]
  else if r ≤ 0x7FF then [Fin.ofNat (0xC0 ||| r >>> 6), Fin.ofNat (0x80 ||| r &&& 0x3F)]
  else if r > 0x10FFFF ∨ (0xD800 ≤ r ∧ r ≤ 0xDFFF) then replacementChar
  else if r ≤ 0xFFFF then
    [Fin.ofNat (0xE0 ||| r >>> 12), Fin.ofNat (0x80 ||| r >>> 6 &&& 0x3F),
     Fin.ofNat (0x80 ||| r &&& 0x3F)]
  else
    [Fin.ofNat (0xF0 ||| r >>> 18), Fin.ofNat (0x80 ||| r >>> 12 &&& 0x3F),
     Fin.ofNat (0x80 ||| r >>> 6 &&& 0x3F), Fin.ofNat (0x80 ||| r &&& 0x3F)]

/-- A continuation byte `80..BF`. -/
def isCont (c : Byte) : Bool := 0x80 ≤ c.val && c.val ≤ 0xBF

/-- The size `utf8.DecodeRune` reports for a well-formed sequence that starts with a byte
`≥ 0x80`, and `0` when the input starts with an ill-formed one (`RuneError`, size 1). -/
def runeLen : GoString → Nat
  | a :: b :: rest =>
    if 0xC2 ≤ a.val && a.val ≤ 0xDF then (if isCont b then 2 else 0)
    else
      match rest with
      | c :: rest2 =>
        if a.val = 0xE0 then (if 0xA0 ≤ b.val && b.val ≤ 0xBF && isCont c then 3 else 0)
        else if a.val = 0xED then (if 0x80 ≤ b.val && b.val ≤ 0x9F && isCont c then 3 else 0)
        else if 0xE1 ≤ a.val && a.val ≤ 0xEF then (if isCont b && isCont c then 3 else 0)
        else
          match rest2 with
          | d :: _ =>
            if a.val = 0xF0 then
              (if 0x90 ≤ b.val && b.val ≤ 0xBF && isCont c && isCont d then 4 else 0)
            else if a.val = 0xF4 then
              (if 0x80 ≤ b.val && b.val ≤ 0x8F && isCont c && isCont d then 4 else 0)
            else if 0xF1 ≤ a.val && a.val ≤ 0xF3 then
              (if isCont b && isCont c && isCont d then 4 else 0)
            else 0
          | [] => 0
      | [] => 0
  | _ => 0

/-- The byte a one-letter escape stands for: the escapes the scanner admits. -/
def simpleEscape (e : Byte) : Option Byte :=
  if e = ascii '"' ∨ e = ascii '\\' ∨ e = ascii '/' then some e
  else if e = ascii 'b' then some 0x08
  else if e = ascii 'f' then some 0x0C
  else if e = ascii 'n' then some 0x0A
  else if e = ascii 'r' then some 0x0D
  else if e = ascii 't' then some 0x09
  else none

/-- The low surrogate of an escape `\uXXXX` at the head of the input, if there is one that
completes the high surrogate `hi`: the rune of the pair and the input after it. -/
def lowSurrogate (hi : Nat) : GoString → Option (Nat × GoString)
  | b :: u :: rest =>
    if b = ascii '\\' ∧ u = ascii 'u' then
      match hex4 rest with
      | some (lo, rest2) =>
        if 0xD800 ≤ hi ∧ hi < 0xDC00 ∧ 0xDC00 ≤ lo ∧ lo < 0xE000 then
          some ((((hi - 0xD800) <<< 10) ||| (lo - 0xDC00)) + 0x10000, rest2)
        else none
      | none => none
    else none
  | _ => none

/-- A string literal after its opening quote (the scanner's check and `unquote` in one pass):
the decoded bytes and the input after the closing quote. Escapes are replaced, ill-formed
UTF-8 becomes U+FFFD, a raw control character is a syntax error. Every turn consumes a byte,
so `fuel` above the length of the input is never used up. -/
def unquote : Nat → GoString → Option (GoString × GoString)
  | 0, _ => none
  | _ + 1, [] => none
  | fuel + 1, c :: rest =>
    if c = ascii '"' then some ([], rest)
    else if c = ascii '\\' then
      match rest with
      | [] => none
      | e :: rest2 =>
        if e = ascii 'u' then
          match hex4 rest2 with
          | none => none
          | some (rr, rest3) =>
            if 0xD800 ≤ rr ∧ rr < 0xE000 then
              match lowSurrogate rr rest3 with
              | some (dec, rest4) =>
                (unquote fuel rest4).map (fun p => (encodeRune dec ++ p.1, p.2))
              | none => (unquote fuel rest3).map (fun p => (replacementChar ++ p.1, p.2))
            else (unquote fuel rest3).map (fun p => (encodeRune rr ++ p.1, p.2))
        else
          match simpleEscape e with
          | none => none
          | some b => (unquote fuel rest2).map (fun p => (b :: p.1, p.2))
    else if c.val < 0x20 then none
    else if c.val < 0x80 then (unquote fuel rest).map (fun p => (c :: p.1, p.2))
    else if runeLen (c :: rest) = 0 then
      (unquote fuel rest).map (fun p => (replacementChar ++ p.1, p.2))
    else
      (unquote fuel ((c :: rest).drop (runeLen (c :: rest)))).map
        (fun p => ((c :: rest).take (runeLen (c :: rest)) ++ p.1, p.2))

/-- The input after the literal `lit`, when the input starts with it. -/
def afterLiteral : GoString → GoString → Option GoString
  | [], s => some s
  | _ :: _, [] => none
  | l :: lit, c :: s => if l = c then afterLiteral lit s else none

/-- The constant `maxNestingDepth` of the scanner. -/
def maxNestingDepth : Nat := 10000

mutual

/-- One JSON value at the head of the input (after white space), decoded as into an
`interface{}`, and the input after it, inside `depth` open arrays and objects; `none` is an
error: of syntax, of nesting beyond `maxNestingDepth`, or of a number beyond the range of
`float64`. Every call consumes a byte before it recurses, so `fuel` above the length of the
input is never used up. -/
def parseValue : Nat → Nat → GoString → Option (JVal × GoString)
  | 0, _, _ => none
  | fuel + 1, depth, s =>
    match skipSpace s with
    | [] => none
    | c :: rest =>
      if c = ascii '{' then
        if maxNestingDepth ≤ depth then none
        else
          match skipSpace rest with
          | [] => none
          | d :: rest2 =>
            if d = ascii '}' then some (.object [], rest2)
            else (parseMembers fuel (depth + 1) (d :: rest2)).map (fun p => (.object p.1, p.2))
      else if c = ascii '[' then
        if maxNestingDepth ≤ depth then none
        else
          match skipSpace rest with
          | [] => none
          | d :: rest2 =>
            if d = ascii ']' then some (.array [], rest2)
            else (parseElems fuel (depth + 1) (d :: rest2)).map (fun p => (.array p.1, p.2))
      else if c = ascii '"' then
        (unquote (rest.length + 1) rest).map (fun p => (.string p.1, p.2))
      else if c = ascii '-' ∨ isDigit c then
        match scanNumber (c :: rest) with
        | none => none
        | some (lit, rest2) => (parseFloat lit).map (fun f => (.number f, rest2))
      else if c = ascii 't' then
        (afterLiteral (utf8 "true") (c :: rest)).map (fun r => (.bool true, r))
      else if c = ascii 'f' then
        (afterLiteral (utf8 "false") (c :: rest)).map (fun r => (.bool false, r))
      else if c = ascii 'n' then
        (afterLiteral (utf8 "null") (c :: rest)).map (fun r => (.null, r))
      else none

/-- The elements of an array from its first value to the closing `]`. -/
def parseElems : Nat → Nat → GoString → Option (List JVal × GoString)
  | 0, _, _ => none
  | fuel + 1, depth, s =>
    match parseValue fuel depth s with
    | none => none
    | some (v, rest) =>
      match skipSpace rest with
      | [] => none
      | d :: rest2 =>
        if d = ascii ',' then (parseElems fuel depth rest2).map (fun p => (v :: p.1, p.2))
        else if d = ascii ']' then some ([v], rest2)
        else none

/-- The members of an object from the opening quote of its first key to the closing `}`,
stored into a map one after the other: a key that occurs again replaces the earlier value. -/
def parseMembers : Nat → Nat → GoString → Option (JMap × GoString)
  | 0, _, _ => none
  | fuel + 1, depth, s =>
    match s with
    | [] => none
    | q :: rest =>
      if q = ascii '"' then
        match unquote (rest.length + 1) rest with
        | none => none
        | some (key, rest2) =>
          match skipSpace rest2 with
          | [] => none
          | col :: rest3 =>
            if col = ascii ':' then
              match parseValue fuel depth rest3 with
              | none => none
              | some (v, rest4) =>
                match skipSpace rest4 with
                | [] => none
                | d :: rest5 =>
                  if d = ascii ',' then
                    (parseMembers fuel depth (skipSpace rest5)).map
                      (fun p => (if (mapGet p.1 key).isSome then p.1 else mapSet p.1 key v, p.2))
                  else if d = ascii '}' then some ([(key, v)], rest5)
                  else none
            else none
      else none

end

/-- What `json.Unmarshal(data, &m)` leaves for a nil `m` of type `map[string]interface{}`:
an error (of syntax, of nesting depth, of a number out of range, or of type when the document
is not an object), or no error and the map, which stays nil (`none`) for the document
`null`. -/
inductive Unmarshaled where
  | error
  | ok (m : Option JMap)

/-- Function `json.Unmarshal` into a nil `map[string]interface{}`. -/
def jsonUnmarshal (data : GoString) : Unmarshaled :=
  match parseValue (data.length + 1) 0 data with
  | none => .error
  | some (v, rest) =>
    if skipSpace rest ≠ [] then .error
    else
      match v with
      | .object m => .ok (some m)
      | .null => .ok none
      | _ => .error

/-! ## `encoding/json`: encoding -/

/-- The table `htmlSafeSet`: the printable ASCII bytes written as they are, that is all from
space to DEL except `"`, `\`, `<`, `>` and `&`. -/
def htmlSafe (b : Byte) : Bool :=
  0x20 ≤ b.val && b.val < 0x80 &&
  !(b == ascii '"' || b == ascii '\\' || b == ascii '<' || b == ascii '>' || b == ascii '&')

/-- The escape of an ASCII byte outside `htmlSafeSet`; backspace and form feed are written
`\u0008` and `\u000c`, as by the Go releases of the program's time. -/
def escapeByte (b : Byte) : GoString :=
  if b = ascii '\\' ∨ b = ascii '"' then [ascii '\\', b]
  else if b = ascii '\n' then utf8 "\\n"
  else if b = ascii '\r' then utf8 "\\r"
  else if b = ascii '\t' then utf8 "\\t"
  else utf8 "\\u00" ++ [hextable.getD (b.val >>> 4) 0, hextable.getD (b.val &&& 0xF) 0]

/-- The body of `encodeState.string` with HTML escaping: the text between the quotes. Every
turn consumes a byte, so `fuel` above the length of the input is never used up. -/
def escapeString : Nat → GoString → GoString
  | 0, _ => []
  | _ + 1, [] => []
  | fuel + 1, b :: rest =>
    if b.val < 0x80 then
      (if htmlSafe b then [b] else escapeByte b) ++ escapeString fuel rest
    else if runeLen (b :: rest) = 0 then utf8 "\\ufffd" ++ escapeString fuel rest
    else if (b :: rest).take 3 = [0xE2, 0x80, 0xA8] then
      utf8 "\\u2028" ++ escapeString fuel (rest.drop 2)
    else if (b :: rest).take 3 = [0xE2, 0x80, 0xA9] then
      utf8 "\\u2029" ++ escapeString fuel (rest.drop 2)
    else
      (b :: rest).take (runeLen (b :: rest)) ++
        escapeString fuel ((b :: rest).drop (runeLen (b :: rest)))

/-- A string as `json.Marshal` writes it. -/
def marshalString (s : GoString) : GoString :=
  ascii '"' :: escapeString (s.length + 1) s ++ [ascii '"']

mutual

/-- A value as `json.Marshal` writes it: compact, object keys in increasing order. -/
def marshalValue : JVal → GoString
  | .null => utf8 "null"
  | .bool true => utf8 "true"
  | .bool false => utf8 "false"
  | .number f => formatFloat f
  | .string s => marshalString s
  | .array elems => ascii '[' :: marshalElems elems ++ [ascii ']']
  | .object members => ascii '{' :: marshalMembers members ++ [ascii '}']

/-- The elements of an array, separated by commas. -/
def marshalElems : List JVal → GoString
  | [] => []
  | [v] => marshalValue v
  | v :: w :: rest => marshalValue v ++ ascii ',' :: marshalElems (w :: rest)

/-- The members of an object, separated by commas. -/
def marshalMembers : List (GoString × JVal) → GoString
  | [] => []
  | [(k, v)] => marshalString k ++ ascii ':' :: marshalValue v
  | (k, v) :: m :: rest =>
    marshalString k ++ ascii ':' :: marshalValue v ++ ascii ',' :: marshalMembers (m :: rest)

end

/-- Function `json.Marshal` on a `map[string]interface{}`; a nil map gives `null`. -/
def jsonMarshal : Option JMap → GoString
  | none => utf8 "null"
  | some m => marshalValue (.object m)

/-- The line break of `json.Indent` with prefix `""` and indent `"  "` at `depth`. -/
def newline (depth : Nat) : GoString := ascii '\n' :: List.replicate (2 * depth) (ascii ' ')

mutual

/-- A value as `json.MarshalIndent(v, "", "  ")` writes it at nesting `depth`: one element or
member per line, `": "` after a key, an empty array or object as `[]` or `{}`. -/
def indentValue (depth : Nat) : JVal → GoString
  | .null => utf8 "null"
  | .bool true => utf8 "true"
  | .bool false => utf8 "false"
  | .number f => formatFloat f
  | .string s => marshalString s
  | .array [] => utf8 "[]"
  | .array (v :: rest) =>
    ascii '[' :: newline (depth + 1) ++ indentElems (depth + 1) (v :: rest) ++
      newline depth ++ [ascii ']']
  | .object [] => utf8 "\x7b\x7d"
  | .object (m :: rest) =>
    ascii '{' :: newline (depth + 1) ++ indentMembers (depth + 1) (m :: rest) ++
      newline depth ++ [ascii '}']

/-- The elements of an array, one per line. -/
def indentElems (depth : Nat) : List JVal → GoString
  | [] => []
  | [v] => indentValue depth v
  | v :: w :: rest =>
    indentValue depth v ++ ascii ',' :: newline depth ++ indentElems depth (w :: rest)

/-- The members of an object, one per line. -/
def indentMembers (depth : Nat) : List (GoString × JVal) → GoString
  | [] => []
  | [(k, v)] => marshalString k ++ utf8 ": " ++ indentValue depth v
  | (k, v) :: m :: rest =>
    marshalString k ++ utf8 ": " ++ indentValue depth v ++ ascii ',' :: newline depth ++
      indentMembers depth (m :: rest)

end

/-- Function `json.MarshalIndent(m, "", "  ")` on a `map[string]interface{}`. -/
def jsonMarshalIndent : Option JMap → GoString
  | none => utf8 "null"
  | some m => indentValue 0 (.object m)

/-! ## The environment of the program -/

/-- The part of an `http.Response` the program reads: `StatusCode`, and the bytes `ReadAll`
gets from `Body`. -/
structure Response where
  statusCode : Nat
  body : GoString
  deriving DecidableEq

/-- The network as the program meets it. `requestOk url` says whether `http.NewRequest`
accepts `url` (it returns a nil request when `url.Parse` rejects it); `post` and `get` are
`http.DefaultClient.Do` for the two requests, with `none` for a transport error. -/
structure Env where
  requestOk : GoString → Bool
  post : (url body : GoString) → Option Response
  get : (url authorization : GoString) → Option Response

/-- What a run does to the outside, in order. Lines of the `log` package and the diagnostic
printed just before a `log.Fatal` are not recorded. -/
inductive Event where
  /-- A POST sent with `http.DefaultClient.Do`: URL, `content-type` header, body. -/
  | httpPost (url contentType body : GoString)
  /-- A GET sent with `http.DefaultClient.Do`: URL and `Authorization` header. -/
  | httpGet (url authorization : GoString)
  /-- A line printed to standard output (`color.*.Println`, `fmt.Println`). -/
  | println (text : GoString)
  /-- Text written to the browser with `io.WriteString(w, _)`. -/
  | respond (text : GoString)
  /-- The call `cleanup(server)`, which starts `server.Close()`. -/
  | serverClose
  /-- The call `open.Start(authUrl)`. -/
  | openBrowser (url : GoString)
  deriving DecidableEq

/-- A run of a Go function: the events it caused and how it ended. -/
structure Run (α : Type) where
  events : List Event
  outcome : Outcome α
  deriving DecidableEq

/-- A Go `error` value, by its message. -/
abbrev GoError := GoString

/-! ## `getAccessToken` and `getUserInfo` -/

/-- The form data `getAccessToken` builds with `fmt.Sprintf`. -/
def tokenRequestData (clientID codeVerifier authorizationCode callbackURL : GoString) :
    GoString :=
  utf8 "grant_type=authorization_code&client_id=" ++ clientID ++
  utf8 "&code_verifier=" ++ codeVerifier ++
  utf8 "&code=" ++ authorizationCode ++
  utf8 "&redirect_uri=" ++ callbackURL

/-- Function `getAccessToken`. A nil request (`http.NewRequest` failed, its error dropped)
panics at `req.Header.Add`; a transport error and an unmarshalling error reach `log.Fatal`,
which ends the process before the `return "", err` after it; `responseData["access_token"]`
asserted to `string` panics unless the field is there and holds a string. -/
def getAccessToken (env : Env)
    (issuer clientID codeVerifier authorizationCode callbackURL : GoString) :
    Run (GoString × Option GoError) :=
  let url := issuer ++ utf8 "/token"
  let data := tokenRequestData clientID codeVerifier authorizationCode callbackURL
  if env.requestOk url = false then ⟨[], .panic⟩
  else
    let sent := [Event.httpPost url (utf8 "application/x-www-form-urlencoded") data]
    match env.post url data with
    | none => ⟨sent, .exit 1⟩
    | some res =>
      match jsonUnmarshal res.body with
      | .error => ⟨sent, .exit 1⟩
      | .ok responseData =>
        if res.statusCode ≠ 200 then ⟨sent, .ret (jsonMarshal responseData, none)⟩
        else
          match responseData.bind (fun m => mapGet m (utf8 "access_token")) with
          | some (.string accessToken) => ⟨sent, .ret (accessToken, none)⟩
          | _ => ⟨sent, .panic⟩

/-- Function `getUserInfo`. On a status other than 200 it marshals `responseData` as declared,
a nil map, without having unmarshalled the body into it. -/
def getUserInfo (env : Env) (issuer accessToken : GoString) : Run (GoString × Option GoError) :=
  let url := issuer ++ utf8 "/userinfo"
  if env.requestOk url = false then ⟨[], .panic⟩
  else
    let sent := [Event.httpGet url (utf8 "Bearer " ++ accessToken)]
    match env.get url (utf8 "Bearer " ++ accessToken) with
    | none => ⟨sent, .exit 1⟩
    | some res =>
      if res.statusCode ≠ 200 then ⟨sent, .ret (jsonMarshal none, none)⟩
      else
        match jsonUnmarshal res.body with
        | .error => ⟨sent, .exit 1⟩
        | .ok responseData => ⟨sent, .ret (jsonMarshalIndent responseData, none)⟩

/-! ## `executeAuthFlow` and its callback handler -/

/-- The package-level variables of `cmd`. -/
structure Globals where
  codeChallenge : GoString
  codeVerifier : GoString
  state : GoString
  authUrl : GoString
  authorizationCode : GoString
  deriving DecidableEq

/-- The variable `scopes`. -/
def scopes : List GoString := [utf8 "openid", utf8 "profile", utf8 "email"]

/-- The page the handler writes on success. -/
def successPage : GoString :=
  utf8 ("\n\t\t<html>\n\t\t\t<body>\n\t\t\t\t<h1>Login successful!</h1>\n" ++
    "\t\t\t\t<h2>You can close this window.</h2>\n\t\t\t</body>\n\t\t</html>")

/-- Function `cleanup`: it starts `server.Close()` in a goroutine. -/
def cleanup : List Event := [.serverClose]

/-- The handler `executeAuthFlow` installs on `/`, run on a request whose URL has the query
`rawQuery`, with the package variables `g`. It reads the parameter `code` and no other. An
empty `code` reaches `log.Fatal`, which ends the process before the lines after it write to
the browser and call `cleanup`. -/
def handler (env : Env) (g : Globals) (clientid issuer redirecturi : GoString)
    (rawQuery : GoString) : Run Unit :=
  let code := valuesGet (parseQuery rawQuery).1 (utf8 "code")
  if code = [] then ⟨[], .exit 1⟩
  else
    match getAccessToken env issuer clientid g.codeVerifier code redirecturi with
    | ⟨ev1, .exit c⟩ => ⟨ev1, .exit c⟩
    | ⟨ev1, .panic⟩ => ⟨ev1, .panic⟩
    | ⟨ev1, .ret (_, some _)⟩ => ⟨ev1, .exit 1⟩
    | ⟨ev1, .ret (token, none)⟩ =>
      let ev2 := ev1 ++ [.println (utf8 "Access Token:"), .println token]
      match getUserInfo env issuer token with
      | ⟨ev3, .exit c⟩ => ⟨ev2 ++ ev3, .exit c⟩
      | ⟨ev3, .panic⟩ => ⟨ev2 ++ ev3, .panic⟩
      | ⟨ev3, .ret (userInfo, _)⟩ =>
        ⟨ev2 ++ ev3 ++ [.println (utf8 "User info:"), .println userInfo, .respond successPage,
          .println (utf8 "Successfully authenticated.")] ++ cleanup, .ret ()⟩

/-- How the serving of requests stands: the process was ended by `os.Exit`, `server.Serve`
returned because the server was closed, or the server still waits for a request. -/
inductive FlowEnd where
  | exited (code : Nat)
  | closed
  | serving
  deriving DecidableEq

/-- A run of `executeAuthFlow`: the events, how it stands at the end, and the package
variables at the end. -/
structure FlowRun where
  events : List Event
  final : FlowEnd
  globals : Globals

/-- The loop of `server.Serve` over the requests that arrive, given by their queries. A
handler that returns after `cleanup` closes the server (the close, started with `go`, is
taken to be done before another request is accepted); a handler that panics is recovered by
`net/http` and the server goes on; a handler that reaches `os.Exit` ends the process. -/
def serve (env : Env) (g : Globals) (clientid issuer redirecturi : GoString) :
    List GoString → List Event × FlowEnd
  | [] => ([], .serving)
  | rawQuery :: later =>
    match handler env g clientid issuer redirecturi rawQuery with
    | ⟨ev, .exit c⟩ => (ev, .exited c)
    | ⟨ev, .panic⟩ =>
      (ev ++ (serve env g clientid issuer redirecturi later).1,
        (serve env g clientid issuer redirecturi later).2)
    | ⟨ev, .ret _⟩ =>
      if Event.serverClose ∈ ev then (ev, .closed)
      else
        (ev ++ (serve env g clientid issuer redirecturi later).1,
          (serve env g clientid issuer redirecturi later).2)

/-- The local system as `executeAuthFlow` meets it: the random bytes read by the three calls
of `uuid.New`, the port `url.Parse(redirecturi)` and `u.Port()` give (`none` when the parse
fails), whether `net.Listen` succeeds on an address, whether `open.Start` succeeds. -/
structure System where
  r1 : Fin 16 → Byte
  r2 : Fin 16 → Byte
  r3 : Fin 16 → Byte
  port : GoString → Option GoString
  listenOk : GoString → Bool
  openOk : GoString → Bool

/-- Function `openAuthUrl`: `open.Start(authUrl)`, and `log.Fatal` when it fails. -/
def openAuthUrl (sys : System) (authUrl : GoString) : Run Unit :=
  if sys.openOk authUrl = false then ⟨[.openBrowser authUrl], .exit 1⟩
  else ⟨[.openBrowser authUrl], .ret ()⟩

/-- The package variables when the program starts. -/
def Globals.initial : Globals := ⟨[], [], [], [], []⟩

/-- Function `executeAuthFlow`, followed through the requests `requests` that reach the
server. The pair of `generateCodeChallenge` goes to `codeChallenge` and `codeVerifier`, the
URL and state of `buildAuthorizeUrl` to `authUrl` and `state`; a redirect URI that does not
parse, a port that cannot be listened on and a browser that does not open end the process. -/
def executeAuthFlow (sys : System) (env : Env) (clientid issuer redirecturi : GoString)
    (requests : List GoString) : FlowRun :=
  let pair := generateCodeChallenge sys.r1 sys.r2
  let g1 : Globals := { Globals.initial with codeChallenge := pair.1, codeVerifier := pair.2 }
  match buildAuthorizeUrl sys.r3 clientid issuer redirecturi g1.codeChallenge scopes with
  | .panic => ⟨[], .exited 2, g1⟩
  | .exit c => ⟨[], .exited c, g1⟩
  | .ret (url, st) =>
    let g2 : Globals := { g1 with authUrl := url, state := st }
    match sys.port redirecturi with
    | none => ⟨[], .exited 1, g2⟩
    | some port =>
      if sys.listenOk (ascii ':' :: port) = false then ⟨[], .exited 1, g2⟩
      else
        match openAuthUrl sys g2.authUrl with
        | ⟨ev, .exit c⟩ => ⟨ev, .exited c, g2⟩
        | ⟨ev, .panic⟩ => ⟨ev, .exited 2, g2⟩
        | ⟨ev, .ret _⟩ =>
          ⟨ev ++ (serve env g2 clientid issuer redirecturi requests).1,
            (serve env g2 clientid issuer redirecturi requests).2, g2⟩

/-- An event allowed in a run whose verifier is `v`: a POST carries the form data of a token
request made with `v`; the browser is not opened again. -/
def Event.keepsVerifier (clientid v redirecturi : GoString) : Event → Prop
  | .httpPost _ _ data => ∃ code, data = tokenRequestData clientid v code redirecturi
  | .openBrowser _ => False
  | _ => True

/-- The five fields of the token request, with the values a server reads. -/
def tokenParams (clientID codeVerifier authorizationCode callbackURL : GoString) : Values :=
  [(utf8 "grant_type", [utf8 "authorization_code"]),
   (utf8 "client_id", [clientID]),
   (utf8 "code_verifier", [codeVerifier]),
   (utf8 "code", [authorizationCode]),
   (utf8 "redirect_uri", [callbackURL])]

/-- The content type of the token request. -/
def formContentType : GoString := utf8 "application/x-www-form-urlencoded"

/-! ## Sample environments -/

/-- A provider that accepts every URL and answers the token request with `token` and the
userinfo request with `userinfo`. -/
def provider (token userinfo : Option Response) : Env where
  requestOk := fun _ => true
  post := fun _ _ => token
  get := fun _ _ => userinfo

/-- A local system whose random source gives zero bytes, whose redirect port is 8080, and
where listening and opening the browser succeed. -/
def sampleSystem : System where
  r1 := fun _ => 0
  r2 := fun _ => 0
  r3 := fun _ => 0
  port := fun _ => some (utf8 "8080")
  listenOk := fun _ => true
  openOk := fun _ => true

/-- The issuer of the end-to-end scenario. -/
def sampleIssuer : GoString := utf8 "https://idp.example/oauth2"

/-- The redirect URI of the end-to-end scenario, the program's default. -/
def sampleRedirect : GoString := utf8 "http://localhost:8080/callback"

/-- The verifier drawn by `sampleSystem`. -/
def sampleVerifier : GoString :=
  utf8 "00000000-0000-4000-8000-00000000000000000000-0000-4000-8000-000000000000"

/-- The state issued by `sampleSystem`. -/
def sampleState : GoString := utf8 "00000000-0000-4000-8000-000000000000"

/-- The package variables of a flow in progress with `sampleVerifier`. -/
def sampleGlobals : Globals :=
  { Globals.initial with codeVerifier := sampleVerifier, state := sampleState }

/-! ## Bodies that `json.Marshal` writes back unchanged -/

/-- A string of bytes that `json.Marshal` writes as they are: printable ASCII other than
`"`, `\`, `<`, `>` and `&`. -/
def PlainString (s : GoString) : Prop := ∀ b ∈ s, htmlSafe b = true

/-- A map whose fields are strings, keys and values plain. -/
def PlainFields (m : JMap) : Prop :=
  ∀ p ∈ m, PlainString p.1 ∧ ∃ s, p.2 = JVal.string s ∧ PlainString s

/-- Keys in strictly increasing byte order. -/
def SortedKeys (m : JMap) : Prop := m.Pairwise (fun a b => strLt a.1 b.1 = true)
/-! ## Lemmas: hexadecimal and UUID strings -/

theorem hexEncode_length (l : List Byte) : (hexEncode l).length = 2 * l.length := by
  induction l with
  | nil => rfl
  | cons v rest ih => simp only [hexEncode, List.length_cons, ih]; omega

set_option maxRecDepth 100000 in
theorem hex_digits_unreserved : ∀ v : Byte,
    isUnreserved (hextable.getD (v.val >>> 4) 0) = true ∧
    isUnreserved (hextable.getD (v.val &&& 0x0f) 0) = true := by
  decide

theorem hexEncode_unreserved (l : List Byte) : ∀ c ∈ hexEncode l, isUnreserved c = true := by
  induction l with
  | nil => intro c hc; simp [hexEncode] at hc
  | cons v rest ih =>
    intro c hc
    simp only [hexEncode, List.mem_cons] at hc
    rcases hc with h | h | h
    · rw [h]; exact (hex_digits_unreserved v).1
    · rw [h]; exact (hex_digits_unreserved v).2
    · exact ih c h

theorem uuidSlice_length (u : UUID) (lo hi : Nat) (h : hi ≤ 16) :
    (uuidSlice u lo hi).length = hi - lo := by
  simp [uuidSlice, List.length_drop, List.length_take, List.length_ofFn, Nat.min_eq_left h]

theorem uuidString_length (u : UUID) : (uuidString u).length = 36 := by
  simp [uuidString, hexEncode_length, uuidSlice_length]

theorem uuidString_unreserved (u : UUID) : ∀ c ∈ uuidString u, isUnreserved c = true := by
  intro c hc
  have hd : isUnreserved (ascii '-') = true := by decide
  simp only [uuidString, List.mem_append, List.mem_singleton] at hc
  rcases hc with ((((((((h | h) | h) | h) | h) | h) | h) | h) | h)
  all_goals first
    | exact hexEncode_unreserved _ c h
    | (rw [h]; exact hd)

/-! ## Lemmas: the base64 encoder against the specification's transform -/

theorem pack3 (a b c : Nat) (hb : b < 256) (hc : c < 256) :
    a <<< 16 ||| b <<< 8 ||| c = a * 65536 + b * 256 + c := by
  have h1 : b <<< 8 ||| c = b * 256 + c := by
    have := Nat.mul_add_lt_is_or (i := 8) (b := c) (by simpa using hc) b
    rw [Nat.shiftLeft_eq, Nat.mul_comm b (2 ^ 8), ← this]
  have h2 : a <<< 16 ||| (b * 256 + c) = a * 65536 + (b * 256 + c) := by
    have := Nat.mul_add_lt_is_or (i := 16) (b := b * 256 + c) (by norm_num; omega) a
    rw [Nat.shiftLeft_eq, Nat.mul_comm a (2 ^ 16), ← this]
  rw [Nat.lor_assoc, h1, h2]; omega

theorem sextet_at (v k : Nat) : v >>> k &&& 0x3F = v / 2 ^ k % 64 := by
  rw [Nat.shiftRight_eq_div_pow]
  exact Nat.and_pow_two_sub_one_eq_mod _ 6

theorem sextet_low (v : Nat) : v &&& 0x3F = v % 64 :=
  Nat.and_pow_two_sub_one_eq_mod _ 6

theorem pack2 (a b : Nat) (hb : b < 256) : a <<< 16 ||| b <<< 8 = a * 65536 + b * 256 := by
  have h : b <<< 8 = b * 256 := by rw [Nat.shiftLeft_eq]
  have := Nat.mul_add_lt_is_or (i := 16) (b := b * 256) (by norm_num; omega) a
  rw [h, Nat.shiftLeft_eq, Nat.mul_comm a (2 ^ 16), ← this]

theorem sextet_arith (a b c : Nat) (hb : b < 256) (hc : c < 256) :
    (a * 65536 + b * 256 + c) / 2 ^ 18 % 64 = a / 4 % 64 ∧
    (a * 65536 + b * 256 + c) / 2 ^ 12 % 64 = a % 4 * 16 + b / 16 ∧
    (a * 65536 + b * 256 + c) / 2 ^ 6 % 64 = b % 16 * 4 + c / 64 ∧
    (a * 65536 + b * 256 + c) % 64 = c % 64 := by
  refine ⟨?_, ?_, ?_, ?_⟩ <;> omega

theorem sextet_vals3 (a b c : Nat) (hb : b < 256) (hc : c < 256) :
    (a <<< 16 ||| b <<< 8 ||| c) >>> 18 &&& 0x3F = a / 4 % 64 ∧
    (a <<< 16 ||| b <<< 8 ||| c) >>> 12 &&& 0x3F = a % 4 * 16 + b / 16 ∧
    (a <<< 16 ||| b <<< 8 ||| c) >>> 6 &&& 0x3F = b % 16 * 4 + c / 64 ∧
    (a <<< 16 ||| b <<< 8 ||| c) &&& 0x3F = c % 64 := by
  rw [pack3 _ _ _ hb hc, sextet_at, sextet_at, sextet_at, sextet_low]
  exact sextet_arith a b c hb hc

theorem sextet_vals2 (a b : Nat) (hb : b < 256) :
    (a <<< 16 ||| b <<< 8) >>> 18 &&& 0x3F = a / 4 % 64 ∧
    (a <<< 16 ||| b <<< 8) >>> 12 &&& 0x3F = a % 4 * 16 + b / 16 ∧
    (a <<< 16 ||| b <<< 8) >>> 6 &&& 0x3F = b % 16 * 4 := by
  rw [pack2 _ _ hb, sextet_at, sextet_at, sextet_at]
  refine ⟨?_, ?_, ?_⟩ <;> omega

theorem sextet_vals1 (a : Nat) :
    (a <<< 16) >>> 18 &&& 0x3F = a / 4 % 64 ∧ (a <<< 16) >>> 12 &&& 0x3F = a % 4 * 16 := by
  rw [sextet_at, sextet_at, Nat.shiftLeft_eq]
  refine ⟨?_, ?_⟩ <;> omega

theorem sextets_three (a b c : Byte) (bits : List Nat) :
    sextets (bitsOfByte a ++ (bitsOfByte b ++ (bitsOfByte c ++ bits))) =
      ((a.val <<< 16 ||| b.val <<< 8 ||| c.val) >>> 18 &&& 0x3F) ::
      ((a.val <<< 16 ||| b.val <<< 8 ||| c.val) >>> 12 &&& 0x3F) ::
      ((a.val <<< 16 ||| b.val <<< 8 ||| c.val) >>> 6 &&& 0x3F) ::
      ((a.val <<< 16 ||| b.val <<< 8 ||| c.val) &&& 0x3F) :: sextets bits := by
  have ha := a.isLt
  have hb := b.isLt
  have hc := c.isLt
  obtain ⟨h1, h2, h3, h4⟩ := sextet_vals3 a.val b.val c.val hb hc
  rw [h1, h2, h3, h4]
  simp only [bitsOfByte, List.cons_append, List.nil_append, sextets, bitsToNat, List.foldl_cons,
    List.foldl_nil, List.cons.injEq, and_true]
  refine ⟨?_, ?_, ?_, ?_, rfl⟩ <;> omega

theorem sextets_two (a b : Byte) :
    sextets (bitsOfByte a ++ (bitsOfByte b ++ [])) =
      [(a.val <<< 16 ||| b.val <<< 8) >>> 18 &&& 0x3F,
       (a.val <<< 16 ||| b.val <<< 8) >>> 12 &&& 0x3F,
       (a.val <<< 16 ||| b.val <<< 8) >>> 6 &&& 0x3F] := by
  have ha := a.isLt
  have hb := b.isLt
  obtain ⟨h1, h2, h3⟩ := sextet_vals2 a.val b.val hb
  rw [h1, h2, h3]
  simp only [bitsOfByte, List.cons_append, List.nil_append, sextets, bitsToNat, List.foldl_cons,
    List.foldl_nil, List.cons.injEq, and_true, List.length_cons, List.length_nil,
    List.replicate, List.append_nil]
  refine ⟨?_, ?_, ?_⟩ <;> omega

theorem sextets_one (a : Byte) :
    sextets (bitsOfByte a ++ []) =
      [(a.val <<< 16) >>> 18 &&& 0x3F, (a.val <<< 16) >>> 12 &&& 0x3F] := by
  have ha := a.isLt
  obtain ⟨h1, h2⟩ := sextet_vals1 a.val
  rw [h1, h2]
  simp only [bitsOfByte, List.cons_append, List.nil_append, sextets, bitsToNat, List.foldl_cons,
    List.foldl_nil, List.cons.injEq, and_true, List.length_cons, List.length_nil,
    List.replicate, List.append_nil]
  refine ⟨?_, ?_⟩ <;> omega

theorem rawURLEncode_eq_spec (data : List Byte) : rawURLEncode data = base64urlNoPad data := by
  induction data using rawURLEncode.induct with
  | case1 a b c rest ih =>
    have h := sextets_three a b c (rest.flatMap bitsOfByte)
    simp only [base64urlNoPad, List.flatMap_cons] at ih ⊢
    rw [h, rawURLEncode, ih]
    rfl
  | case2 a b =>
    have h := sextets_two a b
    simp only [base64urlNoPad, List.flatMap_cons, List.flatMap_nil]
    rw [h, rawURLEncode]
    rfl
  | case3 a =>
    have h := sextets_one a
    simp only [base64urlNoPad, List.flatMap_cons, List.flatMap_nil]
    rw [h, rawURLEncode]
    rfl
  | case4 => rfl


/-! ## The digest model against published test vectors -/

set_option maxRecDepth 100000 in
/-- The digest of `"abc"` is the value published with the SHA-256 standard. -/
theorem sha256_abc : hexEncode (sha256 (utf8 "abc")) =
    utf8 "ba7816bf8f01cfea414140de5dae2223b00361a396177a9cb410ff61f20015ad" := by
  decide

set_option maxRecDepth 100000 in
/-- The digest of the published two-block message. -/
theorem sha256_two_blocks :
    hexEncode (sha256 (utf8 "abcdbcdecdefdefgefghfghighijhijkijkljklmklmnlmnomnopnopq")) =
      utf8 "248d6a61d20638b8e5c026930c3e6039a33ce45964ff2167f6ecedd419db06c1" := by
  decide

set_option maxRecDepth 100000 in
/-- The PKCE example of RFC 7636, appendix B: verifier and `S256` challenge. -/
theorem rfc7636_example :
    rawURLEncode (sha256 (utf8 "dBjftJeZ4CVP-mB92K27uhbUJU1p1r_wW1gFWFOEjXk")) =
      utf8 "E9Melhoa2OwvFrEMTJguCHaoeK1t8URWbuGJSstw-cM" := by
  decide

/-! ## `generateCodeChallenge` -/

theorem generateCodeChallenge_verifier (r1 r2 : Fin 16 → Byte) :
    (generateCodeChallenge r1 r2).2 = uuidString (uuidNew r1) ++ uuidString (uuidNew r2) := rfl

theorem generateCodeChallenge_spec_encoding (r1 r2 : Fin 16 → Byte) :
    (generateCodeChallenge r1 r2).1 = base64urlNoPad (sha256 (generateCodeChallenge r1 r2).2) := by
  simp only [generateCodeChallenge]
  exact rawURLEncode_eq_spec _

/-- C2: for every pair of random UUIDs drawn, the challenge returned by `generateCodeChallenge`
is the unpadded URL-safe base64 encoding (the specification's bit-level transform) of the
SHA-256 digest of the bytes of the verifier returned with it. -/
theorem generateCodeChallenge_challenge (r1 r2 : Fin 16 → Byte) :
    (generateCodeChallenge r1 r2).1 = base64urlNoPad (sha256 (generateCodeChallenge r1 r2).2) := by
  simp only [generateCodeChallenge]
  exact rawURLEncode_eq_spec _

/-- C3: every verifier returned by `generateCodeChallenge` has between 43 and 128 characters
(it has exactly 72) and consists of URL unreserved characters only. -/
theorem generateCodeChallenge_verifier_shape (r1 r2 : Fin 16 → Byte) :
    43 ≤ (generateCodeChallenge r1 r2).2.length ∧
    (generateCodeChallenge r1 r2).2.length ≤ 128 ∧
    (generateCodeChallenge r1 r2).2.length = 72 ∧
    ∀ c ∈ (generateCodeChallenge r1 r2).2, isUnreserved c = true := by
  have hlen : (generateCodeChallenge r1 r2).2.length = 72 := by
    simp [generateCodeChallenge_verifier, uuidString_length]
  refine ⟨by omega, by omega, hlen, ?_⟩
  intro c hc
  rw [generateCodeChallenge_verifier, List.mem_append] at hc
  rcases hc with h | h
  · exact uuidString_unreserved _ c h
  · exact uuidString_unreserved _ c h

/-! ## Lemmas: escaping and unescaping -/

set_option maxRecDepth 100000 in
theorem escape_byte_roundtrip : ∀ c : Byte,
    ishex (upperhex.getD (c.val >>> 4) 0) = true ∧ ishex (upperhex.getD (c.val &&& 15) 0) = true ∧
    (Fin.ofNat (unhex (upperhex.getD (c.val >>> 4) 0) <<< 4 |||
      unhex (upperhex.getD (c.val &&& 15) 0)) : Byte) = c := by
  decide

set_option maxRecDepth 100000 in
theorem kept_byte_plain : ∀ c : Byte, shouldEscape c = false →
    c ≠ ascii '%' ∧ c ≠ ascii '+' ∧ c ≠ ascii '&' ∧ c ≠ ascii ';' ∧ c ≠ ascii '=' := by
  decide

set_option maxRecDepth 100000 in
theorem upperhex_not_separator : ∀ c : Byte,
    upperhex.getD (c.val >>> 4) 0 ≠ ascii '&' ∧ upperhex.getD (c.val >>> 4) 0 ≠ ascii ';' ∧
    upperhex.getD (c.val &&& 15) 0 ≠ ascii '&' ∧ upperhex.getD (c.val &&& 15) 0 ≠ ascii ';' := by
  decide

theorem queryUnescape_percent (h1 h2 : Byte) (rest : GoString) :
    queryUnescape (ascii '%' :: h1 :: h2 :: rest) =
      if ishex h1 && ishex h2 then
        (queryUnescape rest).map (fun t => Fin.ofNat (unhex h1 <<< 4 ||| unhex h2) :: t)
      else none := by
  rw [queryUnescape]; simp

theorem queryUnescape_percent_short (rest : GoString)
    (h : ∀ h1 h2 rest2, rest = h1 :: h2 :: rest2 → False) :
    queryUnescape (ascii '%' :: rest) = none := by
  rw [queryUnescape]
  · simp
  · exact h

theorem queryUnescape_plus (rest : GoString) :
    queryUnescape (ascii '+' :: rest) = (queryUnescape rest).map (fun t => ascii ' ' :: t) := by
  rw [queryUnescape.eq_def]
  simp only [show (ascii '+' = ascii '%') = False from by decide, if_false, if_true]

theorem queryUnescape_other (c : Byte) (rest : GoString) (h1 : c ≠ ascii '%')
    (h2 : c ≠ ascii '+') :
    queryUnescape (c :: rest) = (queryUnescape rest).map (fun t => c :: t) := by
  rw [queryUnescape.eq_def]
  simp only [h1, h2, if_false]

/-- Unescaping undoes `url.QueryEscape`, for every byte string. -/
theorem queryUnescape_queryEscape (s : GoString) : queryUnescape (queryEscape s) = some s := by
  induction s with
  | nil => rfl
  | cons c rest ih =>
    by_cases hsp : c = ascii ' '
    · subst hsp
      simp only [queryEscape, if_true, queryUnescape_plus, ih, Option.map_some']
    · by_cases hesc : shouldEscape c = true
      · obtain ⟨h1, h2, h3⟩ := escape_byte_roundtrip c
        simp only [queryEscape, hsp, if_false, hesc, if_true, queryUnescape_percent, h1, h2,
          Bool.and_self, ih, Option.map_some', h3]
      · have hesc2 : shouldEscape c = false := by simpa using hesc
        obtain ⟨k1, k2, _, _, _⟩ := kept_byte_plain c hesc2
        simp only [queryEscape, hsp, if_false, hesc2, Bool.false_eq_true,
          queryUnescape_other c _ k1 k2, ih, Option.map_some']

/-- The output of `url.QueryEscape` holds no `&` and no `;`. -/
theorem queryEscape_no_separator (s : GoString) :
    ∀ c ∈ queryEscape s, c ≠ ascii '&' ∧ c ≠ ascii ';' := by
  induction s with
  | nil => intro c hc; simp [queryEscape] at hc
  | cons a rest ih =>
    intro c hc
    by_cases hsp : a = ascii ' '
    · simp only [queryEscape, hsp, if_true, List.mem_cons] at hc
      rcases hc with h | h
      · subst h; decide
      · exact ih c h
    · by_cases hesc : shouldEscape a = true
      · obtain ⟨u1, u2, u3, u4⟩ := upperhex_not_separator a
        simp only [queryEscape, hsp, if_false, hesc, if_true, List.mem_cons] at hc
        rcases hc with h | h | h | h
        · subst h; decide
        · subst h; exact ⟨u1, u2⟩
        · subst h; exact ⟨u3, u4⟩
        · exact ih c h
      · have hesc2 : shouldEscape a = false := by simpa using hesc
        obtain ⟨_, _, k3, k4, _⟩ := kept_byte_plain a hesc2
        simp only [queryEscape, hsp, if_false, hesc2, Bool.false_eq_true, List.mem_cons] at hc
        rcases hc with h | h
        · subst h; exact ⟨k3, k4⟩
        · exact ih c h

theorem queryPlain_iff (c : Byte) : queryPlain c = true ↔
    c ≠ ascii '&' ∧ c ≠ ascii ';' ∧ c ≠ ascii '%' ∧ c ≠ ascii '+' := by
  simp [queryPlain, not_or, and_assoc]

/-- A string of plain bytes is its own unescaping. -/
theorem queryUnescape_plain (s : GoString) (h : ∀ c ∈ s, queryPlain c = true) :
    queryUnescape s = some s := by
  induction s with
  | nil => rfl
  | cons c rest ih =>
    obtain ⟨_, _, h3, h4⟩ := (queryPlain_iff c).1 (h c (List.mem_cons_self _ _))
    rw [queryUnescape_other c _ h3 h4, ih (fun d hd => h d (List.mem_cons_of_mem _ hd))]
    rfl

/-- Unescaping distributes over concatenation of strings that unescape. -/
theorem queryUnescape_append (a b a2 b2 : GoString) (ha : queryUnescape a = some a2)
    (hb : queryUnescape b = some b2) : queryUnescape (a ++ b) = some (a2 ++ b2) := by
  induction a using queryUnescape.induct generalizing a2 with
  | case1 => simp only [queryUnescape, Option.some.injEq] at ha; subst ha; simpa using hb
  | case2 h1 h2 rest2 hx ih =>
    rw [queryUnescape_percent] at ha
    simp only [if_true, hx] at ha
    cases hr : queryUnescape rest2 with
    | none => simp [hr] at ha
    | some t =>
      simp only [hr, Option.map_some', Option.some.injEq] at ha
      subst ha
      simp only [List.cons_append, queryUnescape_percent, if_true, hx, ih t hr, Option.map_some']
  | case3 h1 h2 rest2 hx =>
    rw [queryUnescape_percent] at ha
    simp [hx] at ha
  | case4 rest hne =>
    rw [queryUnescape_percent_short rest hne] at ha
    simp at ha
  | case5 rest hc1 ih =>
    rw [queryUnescape_plus] at ha
    cases hr : queryUnescape rest with
    | none => simp [hr] at ha
    | some t =>
      simp only [hr, Option.map_some', Option.some.injEq] at ha
      subst ha
      simp only [List.cons_append, queryUnescape_plus, ih t hr, Option.map_some']
  | case6 c rest hc1 hc2 ih =>
    rw [queryUnescape_other c _ hc1 hc2] at ha
    cases hr : queryUnescape rest with
    | none => simp [hr] at ha
    | some t =>
      simp only [hr, Option.map_some', Option.some.injEq] at ha
      subst ha
      simp only [List.cons_append, queryUnescape_other c _ hc1 hc2, ih t hr, Option.map_some']

/-! ## Lemmas: splitting a query string -/

theorem splitOn_no_sep (sep : Byte) (a : GoString) (h : sep ∉ a) : splitOn sep a = [a] := by
  induction a with
  | nil => rfl
  | cons c rest ih =>
    have hc : c ≠ sep := fun e => h (e ▸ List.mem_cons_self _ _)
    have hr : sep ∉ rest := fun m => h (List.mem_cons_of_mem _ m)
    simp only [splitOn, hc, if_false, ih hr]

theorem splitOn_append (sep : Byte) (a b : GoString) (h : sep ∉ a) :
    splitOn sep (a ++ sep :: b) = a :: splitOn sep b := by
  induction a with
  | nil => simp [splitOn]
  | cons c rest ih =>
    have hc : c ≠ sep := fun e => h (e ▸ List.mem_cons_self _ _)
    have hr : sep ∉ rest := fun m => h (List.mem_cons_of_mem _ m)
    simp only [List.cons_append, splitOn, hc, if_false, List.append_eq, ih hr]

theorem cut_append (sep : Byte) (k v : GoString) (h : sep ∉ k) :
    cut sep (k ++ sep :: v) = (k, v) := by
  induction k with
  | nil => simp [cut]
  | cons c rest ih =>
    have hc : c ≠ sep := fun e => h (e ▸ List.mem_cons_self _ _)
    have hr : sep ∉ rest := fun m => h (List.mem_cons_of_mem _ m)
    simp only [List.cons_append, cut, hc, if_false, List.append_eq, ih hr, List.cons]

theorem GoodParam.no_amp {key raw val : GoString} (g : GoodParam key raw val) :
    ascii '&' ∉ key ++ ascii '=' :: raw := by
  intro h
  rcases List.mem_append.1 h with h | h
  · exact ((queryPlain_iff _).1 (g.keyPlain _ h).1).1 rfl
  · rcases List.mem_cons.1 h with h | h
    · exact absurd h (by decide)
    · exact (g.rawNoSep _ h).1 rfl

theorem GoodParam.step {key raw val : GoString} (g : GoodParam key raw val) (acc : Values × Bool) :
    parseQueryStep acc (key ++ ascii '=' :: raw) = (valuesAdd acc.1 key val, acc.2) := by
  have hsemi : ascii ';' ∉ key ++ ascii '=' :: raw := by
    intro h
    rcases List.mem_append.1 h with h | h
    · exact ((queryPlain_iff _).1 (g.keyPlain _ h).1).2.1 rfl
    · rcases List.mem_cons.1 h with h | h
      · exact absurd h (by decide)
      · exact (g.rawNoSep _ h).2 rfl
  have hne : key ++ ascii '=' :: raw ≠ [] := by simp
  have hcut : cut (ascii '=') (key ++ ascii '=' :: raw) = (key, raw) :=
    cut_append _ _ _ (fun h => (g.keyPlain _ h).2 rfl)
  have hk : queryUnescape key = some key := queryUnescape_plain _ (fun c hc => (g.keyPlain c hc).1)
  simp only [parseQueryStep, hsemi, if_false, hne, hcut, hk, g.decodes]

/-- A plain value placed verbatim is a well-formed parameter. -/
theorem GoodParam.ofPlain {key val : GoString}
    (hk : ∀ c ∈ key, queryPlain c = true ∧ c ≠ ascii '=')
    (hv : ∀ c ∈ val, queryPlain c = true) : GoodParam key val val where
  keyPlain := hk
  rawNoSep := fun c hc =>
    ⟨((queryPlain_iff c).1 (hv c hc)).1, ((queryPlain_iff c).1 (hv c hc)).2.1⟩
  decodes := queryUnescape_plain _ hv

/-- An escaped value is a well-formed parameter. -/
theorem GoodParam.ofEscaped {key : GoString} (val : GoString)
    (hk : ∀ c ∈ key, queryPlain c = true ∧ c ≠ ascii '=') :
    GoodParam key (queryEscape val) val where
  keyPlain := hk
  rawNoSep := queryEscape_no_separator val
  decodes := queryUnescape_queryEscape val

/-! ## Lemmas: parsing a well-formed query -/

theorem queryText_cons_cons (k v : GoString) (p : GoString × GoString)
    (rest : List (GoString × GoString)) :
    queryText ((k, v) :: p :: rest) = (k ++ ascii '=' :: v) ++ ascii '&' :: queryText (p :: rest) := by
  simp [queryText]

theorem parseQuery_fold (ps : List (GoString × GoString × GoString))
    (h : ∀ p ∈ ps, GoodParam p.1 p.2.1 p.2.2) (hne : ps ≠ []) (acc : Values × Bool) :
    (splitOn (ascii '&') (queryText (ps.map (fun p => (p.1, p.2.1))))).foldl parseQueryStep acc =
      (ps.foldl (fun m p => valuesAdd m p.1 p.2.2) acc.1, acc.2) := by
  induction ps generalizing acc with
  | nil => exact absurd rfl hne
  | cons p rest ih =>
    have gp := h p (List.mem_cons_self _ _)
    cases rest with
    | nil =>
      simp only [List.map_cons, List.map_nil, queryText, splitOn_no_sep _ _ gp.no_amp,
        List.foldl_cons, List.foldl_nil, gp.step]
    | cons p2 rest2 =>
      have hrest : ∀ q ∈ p2 :: rest2, GoodParam q.1 q.2.1 q.2.2 :=
        fun q hq => h q (List.mem_cons_of_mem _ hq)
      have := ih hrest (by simp) (valuesAdd acc.1 p.1 p.2.2, acc.2)
      simp only [List.map_cons] at this
      rw [List.map_cons, List.map_cons, queryText_cons_cons]
      rw [splitOn_append _ _ _ gp.no_amp, List.foldl_cons, gp.step, this]
      rfl

theorem valuesAdd_fresh (m : Values) (k v : GoString) (h : ∀ e ∈ m, e.1 ≠ k) :
    valuesAdd m k v = m ++ [(k, [v])] := by
  induction m with
  | nil => rfl
  | cons e rest ih =>
    obtain ⟨k2, vs⟩ := e
    have h1 : k2 ≠ k := h (k2, vs) (List.mem_cons_self _ _)
    simp only [valuesAdd, h1, if_false, List.cons_append,
      ih (fun e he => h e (List.mem_cons_of_mem _ he))]

theorem valuesAdd_fold (ps : List (GoString × GoString × GoString)) (m : Values)
    (hnd : (m.map (fun e => e.1) ++ ps.map (fun p => p.1)).Nodup) :
    ps.foldl (fun m p => valuesAdd m p.1 p.2.2) m = m ++ ps.map (fun p => (p.1, [p.2.2])) := by
  induction ps generalizing m with
  | nil => simp
  | cons p rest ih =>
    have hfresh : ∀ e ∈ m, e.1 ≠ p.1 := by
      intro e he heq
      rw [List.nodup_append] at hnd
      exact hnd.2.2 (List.mem_map_of_mem (fun e => e.1) he)
        (heq ▸ List.mem_cons_self _ _)
    rw [List.foldl_cons, valuesAdd_fresh m p.1 p.2.2 hfresh, ih]
    · simp
    · simpa [List.map_append, List.append_assoc] using hnd

/-- Parsing the text of well-formed parameters with distinct keys gives each key once, with
its unescaped value, and no error. -/
theorem parseQuery_queryText (ps : List (GoString × GoString × GoString))
    (h : ∀ p ∈ ps, GoodParam p.1 p.2.1 p.2.2) (hne : ps ≠ [])
    (hnd : (ps.map (fun p => p.1)).Nodup) :
    parseQuery (queryText (ps.map (fun p => (p.1, p.2.1)))) =
      (ps.map (fun p => (p.1, [p.2.2])), false) := by
  rw [parseQuery, parseQuery_fold ps h hne, valuesAdd_fold ps [] (by simpa using hnd)]
  simp

/-! ## `buildAuthorizeUrl` -/

theorem joinScopes_cons (s : GoString) (rest : List GoString) :
    joinScopes (s :: rest) = s ++ rest.flatMap (fun t => ascii ' ' :: t) := by
  induction rest generalizing s with
  | nil => simp [joinScopes]
  | cons t rest ih => simp [joinScopes, ih]

theorem appendScopes_no_separator (acc : GoString) (rest : List GoString)
    (h : ∀ c ∈ acc, c ≠ ascii '&' ∧ c ≠ ascii ';') :
    ∀ c ∈ appendScopes acc rest, c ≠ ascii '&' ∧ c ≠ ascii ';' := by
  have h20 : ∀ c ∈ utf8 "%20", c ≠ ascii '&' ∧ c ≠ ascii ';' := by decide
  induction rest generalizing acc with
  | nil => simpa [appendScopes] using h
  | cons s rest ih =>
    rw [appendScopes]
    apply ih
    intro c hc
    rcases List.mem_append.1 hc with hc | hc
    · rcases List.mem_append.1 hc with hc | hc
      · exact h c hc
      · exact h20 c hc
    · exact queryEscape_no_separator s c hc

theorem appendScopes_decodes (acc dacc : GoString) (rest : List GoString)
    (h : queryUnescape acc = some dacc) :
    queryUnescape (appendScopes acc rest) =
      some (dacc ++ rest.flatMap (fun t => ascii ' ' :: t)) := by
  induction rest generalizing acc dacc with
  | nil => simpa [appendScopes] using h
  | cons s rest ih =>
    rw [appendScopes]
    have h20 : queryUnescape (utf8 "%20") = some [ascii ' '] := by decide
    have h1 := queryUnescape_append _ _ _ _ (queryUnescape_append _ _ _ _ h h20)
      (queryUnescape_queryEscape s)
    rw [ih _ _ h1]
    simp

set_option maxRecDepth 100000 in
/-- The scope parameter built by `buildAuthorizeUrl` is well formed and decodes to the scopes
joined by single spaces. -/
theorem scope_param (s0 : GoString) (rest : List GoString) :
    GoodParam (utf8 "scope") (appendScopes (queryEscape s0) rest) (joinScopes (s0 :: rest)) where
  keyPlain := by decide
  rawNoSep := appendScopes_no_separator _ _ (queryEscape_no_separator s0)
  decodes := by
    rw [appendScopes_decodes _ _ _ (queryUnescape_queryEscape s0), joinScopes_cons]

set_option maxRecDepth 100000 in
theorem unreserved_plain : ∀ c : Byte, isUnreserved c = true → queryPlain c = true := by
  decide

set_option maxRecDepth 100000 in
/-- The state parameter, a UUID string, is well formed and stands for itself. -/
theorem state_param (u : UUID) : GoodParam (utf8 "state") (uuidString u) (uuidString u) :=
  GoodParam.ofPlain (by decide) (fun c hc => unreserved_plain c (uuidString_unreserved u c hc))

/-- The text after `issuer + "/authorize?"` in the URL of `buildAuthorizeUrl`. -/
theorem buildAuthorizeUrl_text (r : Fin 16 → Byte)
    (clientid issuer redirecturi codeChallenge s0 : GoString) (rest : List GoString) :
    buildAuthorizeUrl r clientid issuer redirecturi codeChallenge (s0 :: rest) =
      .ret (issuer ++ utf8 "/authorize?" ++ queryText
        [(utf8 "response_type", utf8 "code"),
         (utf8 "client_id", clientid),
         (utf8 "redirect_uri", queryEscape redirecturi),
         (utf8 "code_challenge_method", utf8 "S256"),
         (utf8 "code_challenge", codeChallenge),
         (utf8 "scope", appendScopes (queryEscape s0) rest),
         (utf8 "state", uuidString (uuidNew r))], uuidString (uuidNew r)) := by
  have l1 : utf8 "response_type=code" = utf8 "response_type" ++ ascii '=' :: utf8 "code" := by
    decide
  have l2 : utf8 "&client_id=" = ascii '&' :: (utf8 "client_id" ++ [ascii '=']) := by decide
  have l3 : utf8 "&redirect_uri=" = ascii '&' :: (utf8 "redirect_uri" ++ [ascii '=']) := by
    decide
  have l4 : utf8 "&code_challenge_method=S256" =
      ascii '&' :: (utf8 "code_challenge_method" ++ ascii '=' :: utf8 "S256") := by decide
  have l5 : utf8 "&code_challenge=" = ascii '&' :: (utf8 "code_challenge" ++ [ascii '=']) := by
    decide
  have l6 : utf8 "&scope=" = ascii '&' :: (utf8 "scope" ++ [ascii '=']) := by decide
  have l7 : utf8 "&state=" = ascii '&' :: (utf8 "state" ++ [ascii '=']) := by decide
  simp only [buildAuthorizeUrl, l1, l2, l3, l4, l5, l6, l7, queryText, List.append_assoc,
    List.cons_append, List.nil_append]

set_option maxRecDepth 100000 in
/-- C4 (amended): for every issuer, redirectUri and non-empty scope list, and for every clientId
and challenge made of bytes other than `&`, `;`, `%` and `+` (these two values are placed in
the URL as they are, only redirect_uri and the scopes are escaped), the URL returned by
`buildAuthorizeUrl` is issuer + "/authorize?" followed by a query string that parses, without
error, to exactly the seven parameters, each once: response_type=code, client_id=clientId,
redirect_uri=redirectUri, code_challenge_method=S256, code_challenge=challenge, scope=the
scopes joined by single spaces in their order, state=the returned state. -/
theorem buildAuthorizeUrl_query (r : Fin 16 → Byte)
    (clientid issuer redirecturi codeChallenge s0 : GoString) (rest : List GoString)
    (hid : ∀ c ∈ clientid, queryPlain c = true)
    (hch : ∀ c ∈ codeChallenge, queryPlain c = true) :
    ∃ q, buildAuthorizeUrl r clientid issuer redirecturi codeChallenge (s0 :: rest) =
        .ret (issuer ++ utf8 "/authorize?" ++ q, uuidString (uuidNew r)) ∧
      parseQuery q = (authorizeParams clientid redirecturi codeChallenge
        (joinScopes (s0 :: rest)) (uuidString (uuidNew r)), false) := by
  refine ⟨_, buildAuthorizeUrl_text r clientid issuer redirecturi codeChallenge s0 rest, ?_⟩
  have key := parseQuery_queryText
    [(utf8 "response_type", utf8 "code", utf8 "code"),
     (utf8 "client_id", clientid, clientid),
     (utf8 "redirect_uri", queryEscape redirecturi, redirecturi),
     (utf8 "code_challenge_method", utf8 "S256", utf8 "S256"),
     (utf8 "code_challenge", codeChallenge, codeChallenge),
     (utf8 "scope", appendScopes (queryEscape s0) rest, joinScopes (s0 :: rest)),
     (utf8 "state", uuidString (uuidNew r), uuidString (uuidNew r))]
    (by
      intro p hp
      simp only [List.mem_cons, List.mem_singleton, List.not_mem_nil, or_false] at hp
      rcases hp with h | h | h | h | h | h | h <;> subst h
      · exact GoodParam.ofPlain (by decide) (by decide)
      · exact @GoodParam.ofPlain (utf8 "client_id") clientid (by decide) hid
      · exact @GoodParam.ofEscaped (utf8 "redirect_uri") redirecturi (by decide)
      · exact GoodParam.ofPlain (by decide) (by decide)
      · exact @GoodParam.ofPlain (utf8 "code_challenge") codeChallenge (by decide) hch
      · exact scope_param s0 rest
      · exact state_param (uuidNew r))
    (by simp)
    (by simp only [List.map_cons, List.map_nil]; decide)
  simpa [authorizeParams] using key

set_option maxRecDepth 100000 in
/-- C4, an instance of the amended claim: the default scopes and a client id of letters. -/
theorem buildAuthorizeUrl_query_witness :
    ∃ q, buildAuthorizeUrl (fun _ => 0) (utf8 "cid") (utf8 "https://idp.example/oauth2")
        (utf8 "http://localhost:8080/callback") (utf8 "E9Melhoa2OwvFrEMTJguCHaoeK1t8URWbuGJSstw-cM")
        (utf8 "openid" :: [utf8 "profile", utf8 "email"]) =
        .ret (utf8 "https://idp.example/oauth2" ++ utf8 "/authorize?" ++ q,
          uuidString (uuidNew (fun _ => 0))) ∧
      parseQuery q = (authorizeParams (utf8 "cid") (utf8 "http://localhost:8080/callback")
        (utf8 "E9Melhoa2OwvFrEMTJguCHaoeK1t8URWbuGJSstw-cM")
        (joinScopes (utf8 "openid" :: [utf8 "profile", utf8 "email"]))
        (uuidString (uuidNew (fun _ => 0))), false) :=
  buildAuthorizeUrl_query (fun _ => 0) (utf8 "cid") (utf8 "https://idp.example/oauth2")
    (utf8 "http://localhost:8080/callback") (utf8 "E9Melhoa2OwvFrEMTJguCHaoeK1t8URWbuGJSstw-cM")
    (utf8 "openid") [utf8 "profile", utf8 "email"] (by decide) (by decide)

set_option maxRecDepth 100000 in
/-- C4 fails as stated: with the client id `a&b` the query string of the URL parses to
`client_id=a` and a further parameter `b`, not to `client_id=a&b`. -/
theorem buildAuthorizeUrl_client_id_not_escaped :
    buildAuthorizeUrl (fun _ => 0) (utf8 "a&b") (utf8 "https://idp.example/oauth2")
        (utf8 "http://localhost:8080/callback") (utf8 "CH") [utf8 "openid"] =
      .ret (utf8 "https://idp.example/oauth2" ++ utf8 "/authorize?" ++
        utf8 ("response_type=code&client_id=a&b&redirect_uri=http%3A%2F%2Flocalhost%3A8080%2Fcallback" ++
          "&code_challenge_method=S256&code_challenge=CH&scope=openid" ++
          "&state=00000000-0000-4000-8000-000000000000"),
        utf8 "00000000-0000-4000-8000-000000000000") ∧
    parseQuery (utf8 ("response_type=code&client_id=a&b&redirect_uri=http%3A%2F%2Flocalhost%3A8080%2Fcallback" ++
          "&code_challenge_method=S256&code_challenge=CH&scope=openid" ++
          "&state=00000000-0000-4000-8000-000000000000")) =
      ([(utf8 "response_type", [utf8 "code"]), (utf8 "client_id", [utf8 "a"]), (utf8 "b", [[]]),
        (utf8 "redirect_uri", [utf8 "http://localhost:8080/callback"]),
        (utf8 "code_challenge_method", [utf8 "S256"]), (utf8 "code_challenge", [utf8 "CH"]),
        (utf8 "scope", [utf8 "openid"]),
        (utf8 "state", [utf8 "00000000-0000-4000-8000-000000000000"])], false) ∧
    (parseQuery (utf8 ("response_type=code&client_id=a&b&redirect_uri=http%3A%2F%2Flocalhost%3A8080%2Fcallback" ++
          "&code_challenge_method=S256&code_challenge=CH&scope=openid" ++
          "&state=00000000-0000-4000-8000-000000000000"))).1 ≠
      authorizeParams (utf8 "a&b") (utf8 "http://localhost:8080/callback") (utf8 "CH")
        (joinScopes [utf8 "openid"]) (utf8 "00000000-0000-4000-8000-000000000000") := by
  decide

/-! ## Lemmas: a compact object of plain strings is read back as written -/

set_option maxRecDepth 100000 in
theorem htmlSafe_facts : ∀ b : Byte, htmlSafe b = true →
    b.val < 0x80 ∧ ¬ b.val < 0x20 ∧ b ≠ ascii '"' ∧ b ≠ ascii '\\' := by
  decide

theorem escapeString_plain (s : GoString) (fuel : Nat) (h : PlainString s)
    (hf : s.length ≤ fuel) : escapeString fuel s = s := by
  induction s generalizing fuel with
  | nil => cases fuel <;> rfl
  | cons b rest ih =>
    cases fuel with
    | zero => simp at hf
    | succ n =>
      have hb := h b (List.mem_cons_self _ _)
      obtain ⟨h1, _, _, _⟩ := htmlSafe_facts b hb
      have hr := ih n (fun c hc => h c (List.mem_cons_of_mem _ hc))
        (by simpa using hf)
      simp only [escapeString, h1, if_true, hb, hr, List.singleton_append]

theorem marshalString_plain (s : GoString) (h : PlainString s) :
    marshalString s = ascii '"' :: (s ++ [ascii '"']) := by
  simp only [marshalString, escapeString_plain s _ h (Nat.le_succ _), List.cons_append]

theorem unquote_plain (s rest : GoString) (fuel : Nat) (h : PlainString s)
    (hf : s.length < fuel) : unquote fuel (s ++ ascii '"' :: rest) = some (s, rest) := by
  induction s generalizing fuel with
  | nil =>
    cases fuel with
    | zero => simp at hf
    | succ n => simp [unquote]
  | cons b tail ih =>
    cases fuel with
    | zero => simp at hf
    | succ n =>
      have hb := h b (List.mem_cons_self _ _)
      obtain ⟨h1, h2, h3, h4⟩ := htmlSafe_facts b hb
      have hr := ih n (fun c hc => h c (List.mem_cons_of_mem _ hc))
        (by simpa using hf)
      simp only [List.cons_append, unquote, h3, h4, if_false, h2, h1, if_true, List.append_eq,
        hr, Option.map_some']

theorem skipSpace_nonspace (c : Byte) (rest : GoString) (h : isSpace c = false) :
    skipSpace (c :: rest) = c :: rest := by
  simp [skipSpace, h]

/-- A plain string value at the head of the input is read back. -/
theorem parseValue_string (s rest : GoString) (fuel depth : Nat) (h : PlainString s) :
    parseValue (fuel + 1) depth (marshalString s ++ rest) = some (.string s, rest) := by
  rw [marshalString_plain s h]
  simp only [List.cons_append, List.append_assoc, List.nil_append]
  rw [parseValue, skipSpace_nonspace _ _ (by decide)]
  simp only [show (ascii '"' = ascii '{') = False from by decide,
    show (ascii '"' = ascii '[') = False from by decide, if_false, if_true]
  rw [unquote_plain s rest _ h (by simp only [List.length_append, List.length_cons]; omega)]
  rfl

theorem strLt_irrefl (a : GoString) : strLt a a = false := by
  induction a with
  | nil => rfl
  | cons b rest ih => simp [strLt, ih]

theorem mapGet_none_of_lt (m : JMap) (k : GoString) (h : ∀ p ∈ m, strLt k p.1 = true) :
    mapGet m k = none := by
  induction m with
  | nil => rfl
  | cons p rest ih =>
    obtain ⟨k0, x⟩ := p
    have h0 : k0 ≠ k := by
      intro e
      have := h (k0, x) (List.mem_cons_self _ _)
      rw [e, strLt_irrefl] at this
      cases this
    simp only [mapGet, h0, if_false, ih (fun p hp => h p (List.mem_cons_of_mem _ hp))]

theorem mapSet_front (m : JMap) (k : GoString) (v : JVal) (h : ∀ p ∈ m, strLt k p.1 = true) :
    mapSet m k v = (k, v) :: m := by
  cases m with
  | nil => rfl
  | cons p rest =>
    obtain ⟨k0, x⟩ := p
    have hlt := h (k0, x) (List.mem_cons_self _ _)
    have h0 : k ≠ k0 := by
      intro e
      rw [e, strLt_irrefl] at hlt
      cases hlt
    simp only [mapSet, h0, if_false, hlt, if_true]

/-- The text of one member with a plain key and a plain string value, followed by `z`. -/
theorem member_text (k s z : GoString) (hk : PlainString k) :
    marshalString k ++ ascii ':' :: (marshalValue (.string s) ++ z) =
      ascii '"' :: (k ++ ascii '"' :: ascii ':' :: (marshalString s ++ z)) := by
  rw [marshalString_plain k hk]
  simp [marshalValue]

/-- One member at the head of the input, up to what follows its value. -/
theorem parseMembers_head (k s z : GoString) (fuel depth : Nat) (hk : PlainString k)
    (hs : PlainString s) :
    parseMembers (fuel + 2) depth
        (ascii '"' :: (k ++ ascii '"' :: ascii ':' :: (marshalString s ++ z))) =
      match skipSpace z with
      | [] => none
      | d :: rest5 =>
        if d = ascii ',' then
          (parseMembers (fuel + 1) depth (skipSpace rest5)).map
            (fun p => (if (mapGet p.1 k).isSome then p.1 else mapSet p.1 k (.string s), p.2))
        else if d = ascii '}' then some ([(k, .string s)], rest5)
        else none := by
  rw [parseMembers]
  simp only [if_true]
  rw [unquote_plain k _ _ hk (by simp only [List.length_append, List.length_cons]; omega)]
  simp only
  rw [skipSpace_nonspace _ _ (by decide)]
  simp only [if_true]
  rw [parseValue_string s z fuel depth hs]

/-- The members of a map of plain strings with sorted keys are read back, up to the closing
brace. -/
theorem parseMembers_plain (m : JMap) (rest : GoString) (fuel depth : Nat) (hne : m ≠ [])
    (hp : PlainFields m) (hs : SortedKeys m) (hf : m.length < fuel) :
    parseMembers (fuel + 1) depth (marshalMembers m ++ ascii '}' :: rest) = some (m, rest) := by
  induction m generalizing fuel with
  | nil => exact absurd rfl hne
  | cons p tail ih =>
    obtain ⟨k, v⟩ := p
    obtain ⟨hk, s, hv, hsv⟩ := hp (k, v) (List.mem_cons_self _ _)
    simp only at hv hk
    subst hv
    cases fuel with
    | zero => simp at hf
    | succ n =>
      cases tail with
      | nil =>
        have htext : marshalMembers [(k, JVal.string s)] ++ ascii '}' :: rest =
            ascii '"' :: (k ++ ascii '"' :: ascii ':' :: (marshalString s ++ ascii '}' :: rest)) := by
          rw [← member_text k s _ hk]
          simp [marshalMembers]
        rw [htext, parseMembers_head k s _ n depth hk hsv, skipSpace_nonspace _ _ (by decide)]
        simp only [show (ascii '}' = ascii ',') = False from by decide, if_false, if_true]
      | cons p2 tail2 =>
        have htext : marshalMembers ((k, JVal.string s) :: p2 :: tail2) ++ ascii '}' :: rest =
            ascii '"' :: (k ++ ascii '"' :: ascii ':' :: (marshalString s ++
              ascii ',' :: (marshalMembers (p2 :: tail2) ++ ascii '}' :: rest))) := by
          rw [← member_text k s _ hk]
          simp [marshalMembers]
        have hlt : ∀ q ∈ p2 :: tail2, strLt k q.1 = true := by
          intro q hq
          exact (List.pairwise_cons.1 hs).1 q hq
        have hstart : ∃ w, marshalMembers (p2 :: tail2) ++ ascii '}' :: rest = ascii '"' :: w := by
          obtain ⟨k2, v2⟩ := p2
          cases tail2 with
          | nil => exact ⟨_, rfl⟩
          | cons p3 t3 => exact ⟨_, rfl⟩
        obtain ⟨w, hw⟩ := hstart
        have hih := ih n (by simp) (fun q hq => hp q (List.mem_cons_of_mem _ hq))
          (List.pairwise_cons.1 hs).2 (by simpa using hf)
        rw [htext, parseMembers_head k s _ n depth hk hsv, skipSpace_nonspace _ _ (by decide)]
        simp only [if_true]
        rw [hw, skipSpace_nonspace _ _ (by decide), ← hw, hih]
        simp only [Option.map_some', mapGet_none_of_lt _ k hlt, Option.isSome_none,
          Bool.false_eq_true, if_false, mapSet_front _ k _ hlt]

theorem marshalMembers_length (m : JMap) : m.length ≤ (marshalMembers m).length := by
  induction m with
  | nil => simp
  | cons p tail ih =>
    obtain ⟨k, v⟩ := p
    cases tail with
    | nil => simp [marshalMembers, marshalString]
    | cons p2 t2 =>
      simp only [marshalMembers, marshalString, List.length_append, List.length_cons,
        List.cons_append] at ih ⊢
      omega

/-- A compact object of plain string fields with sorted keys is unmarshalled to the map it
was marshalled from. -/
theorem jsonUnmarshal_jsonMarshal (m : JMap) (hp : PlainFields m) (hs : SortedKeys m) :
    jsonUnmarshal (jsonMarshal (some m)) = .ok (some m) := by
  cases m with
  | nil => rfl
  | cons p tail =>
    have hstart : ∃ w, marshalMembers (p :: tail) ++ [ascii '}'] = ascii '"' :: w := by
      obtain ⟨k2, v2⟩ := p
      cases tail with
      | nil => exact ⟨_, rfl⟩
      | cons p3 t3 => exact ⟨_, rfl⟩
    obtain ⟨w, hw⟩ := hstart
    have hlen := marshalMembers_length (p :: tail)
    have hfuel : ∃ n, (jsonMarshal (some (p :: tail))).length = n + 1 ∧ (p :: tail).length < n := by
      refine ⟨(marshalMembers (p :: tail)).length + 1, ?_, by omega⟩
      simp [jsonMarshal, marshalValue]
    obtain ⟨n, hn1, hn2⟩ := hfuel
    have hpm := parseMembers_plain (p :: tail) [] n 1 (by simp) hp hs hn2
    rw [jsonUnmarshal, hn1]
    simp only [jsonMarshal, marshalValue, List.cons_append]
    rw [parseValue, skipSpace_nonspace _ _ (by decide)]
    simp only [if_true, show (maxNestingDepth ≤ 0) = False from by decide, if_false]
    rw [hw, skipSpace_nonspace _ _ (by decide)]
    simp only [show (ascii '"' = ascii '}') = False from by decide, if_false]
    rw [← hw, hpm]
    rfl

/-! ## `getAccessToken` -/

/-- Whatever the provider answers, `getAccessToken` sends at most the one POST it builds. -/
theorem getAccessToken_events (env : Env)
    (issuer clientID codeVerifier authorizationCode callbackURL : GoString) :
    (getAccessToken env issuer clientID codeVerifier authorizationCode callbackURL).events = [] ∨
    (getAccessToken env issuer clientID codeVerifier authorizationCode callbackURL).events =
      [.httpPost (issuer ++ utf8 "/token") formContentType
        (tokenRequestData clientID codeVerifier authorizationCode callbackURL)] := by
  unfold getAccessToken
  simp only
  split
  · exact Or.inl rfl
  · right
    split
    · rfl
    · split
      · rfl
      · split
        · rfl
        · split <;> rfl

/-- Once `http.NewRequest` accepts the token URL, the POST is sent, and it is the only event. -/
theorem getAccessToken_sends (env : Env)
    (issuer clientID codeVerifier authorizationCode callbackURL : GoString)
    (hok : env.requestOk (issuer ++ utf8 "/token") = true) :
    (getAccessToken env issuer clientID codeVerifier authorizationCode callbackURL).events =
      [.httpPost (issuer ++ utf8 "/token") formContentType
        (tokenRequestData clientID codeVerifier authorizationCode callbackURL)] := by
  unfold getAccessToken
  simp only [hok, Bool.true_eq_false, if_false]
  split
  · rfl
  · split
    · rfl
    · split
      · rfl
      · split <;> rfl

/-- `getAccessToken` never returns a non-nil error: each `return "", err` follows a
`log.Fatal`. -/
theorem getAccessToken_error_nil (env : Env)
    (issuer clientID codeVerifier authorizationCode callbackURL : GoString)
    (text : GoString) (err : Option GoError)
    (h : (getAccessToken env issuer clientID codeVerifier authorizationCode callbackURL).outcome =
      .ret (text, err)) : err = none := by
  unfold getAccessToken at h
  simp only at h
  split at h
  · cases h
  · split at h
    · cases h
    · split at h
      · cases h
      · split at h
        · cases h; rfl
        · split at h
          · cases h; rfl
          · cases h

/-- A response with status 200 whose JSON object has a string field `access_token`: the
value of the field is returned, with a nil error. -/
theorem getAccessToken_token (env : Env)
    (issuer clientID codeVerifier authorizationCode callbackURL body t : GoString) (m : JMap)
    (hok : env.requestOk (issuer ++ utf8 "/token") = true)
    (hres : env.post (issuer ++ utf8 "/token")
      (tokenRequestData clientID codeVerifier authorizationCode callbackURL) = some ⟨200, body⟩)
    (hbody : jsonUnmarshal body = .ok (some m))
    (hfield : mapGet m (utf8 "access_token") = some (.string t)) :
    (getAccessToken env issuer clientID codeVerifier authorizationCode callbackURL).outcome =
      .ret (t, none) := by
  unfold getAccessToken
  simp [hok, hres, hbody, hfield]

/-- A response with status 200 whose JSON object has no field `access_token`: the type
assertion panics. -/
theorem getAccessToken_no_field (env : Env)
    (issuer clientID codeVerifier authorizationCode callbackURL body : GoString) (m : JMap)
    (hok : env.requestOk (issuer ++ utf8 "/token") = true)
    (hres : env.post (issuer ++ utf8 "/token")
      (tokenRequestData clientID codeVerifier authorizationCode callbackURL) = some ⟨200, body⟩)
    (hbody : jsonUnmarshal body = .ok (some m))
    (hfield : mapGet m (utf8 "access_token") = none) :
    (getAccessToken env issuer clientID codeVerifier authorizationCode callbackURL).outcome =
      .panic := by
  unfold getAccessToken
  simp [hok, hres, hbody, hfield]

set_option maxRecDepth 100000 in
/-- The first part of C6 on the example of the specification: status 200 and the body
`{"access_token":"abc"}` give the token `abc` and a nil error. -/
theorem getAccessToken_example_token :
    getAccessToken (provider (some ⟨200, utf8 "\x7b\"access_token\":\"abc\"\x7d"⟩) none)
        sampleIssuer (utf8 "cid") sampleVerifier (utf8 "XYZ") sampleRedirect =
      ⟨[.httpPost (utf8 "https://idp.example/oauth2/token") formContentType
          (tokenRequestData (utf8 "cid") sampleVerifier (utf8 "XYZ") sampleRedirect)],
        .ret (utf8 "abc", none)⟩ := by
  decide

set_option maxRecDepth 100000 in
/-- C6, second part, fails in the code: status 200 and the JSON object `{"error":"x"}`, which
has no field `access_token`, make `getAccessToken` panic after its POST; nothing is returned
to the caller, neither a token nor an error value. -/
theorem getAccessToken_missing_field_panics :
    getAccessToken (provider (some ⟨200, utf8 "\x7b\"error\":\"x\"\x7d"⟩) none)
        sampleIssuer (utf8 "cid") sampleVerifier (utf8 "XYZ") sampleRedirect =
      ⟨[.httpPost (utf8 "https://idp.example/oauth2/token") formContentType
          (tokenRequestData (utf8 "cid") sampleVerifier (utf8 "XYZ") sampleRedirect)],
        .panic⟩ := by
  decide

/-- A response with a status other than 200 whose body `json.Unmarshal` accepts: the text
`json.Marshal` writes for the parsed map is returned, with a nil error. -/
theorem getAccessToken_remarshals (env : Env)
    (issuer clientID codeVerifier authorizationCode callbackURL : GoString)
    (res : Response) (m : Option JMap)
    (hok : env.requestOk (issuer ++ utf8 "/token") = true)
    (hres : env.post (issuer ++ utf8 "/token")
      (tokenRequestData clientID codeVerifier authorizationCode callbackURL) = some res)
    (hstatus : res.statusCode ≠ 200)
    (hbody : jsonUnmarshal res.body = .ok m) :
    getAccessToken env issuer clientID codeVerifier authorizationCode callbackURL =
      ⟨[.httpPost (issuer ++ utf8 "/token") formContentType
          (tokenRequestData clientID codeVerifier authorizationCode callbackURL)],
        .ret (jsonMarshal m, none)⟩ := by
  unfold getAccessToken
  simp only [hok, Bool.true_eq_false, if_false, hres, hbody, hstatus, ne_eq, not_false_eq_true,
    if_true]
  rfl

/-- C7 (amended): for every token-endpoint response with a status other than 200 whose body
`json.Unmarshal` accepts into the map (a JSON object, or `null`), `getAccessToken` returns,
with a nil error and after its single POST, the text `json.Marshal` writes for the parsed
map, that is the body in compact form with sorted keys. This is the provider's body
character for character whenever the body is a compact JSON object of string fields, keys in
increasing order, keys and values of printable ASCII other than `"`, `\`, `<`, `>`, `&`;
other bodies come back re-serialised, not as received. -/
theorem getAccessToken_error_body (env : Env)
    (issuer clientID codeVerifier authorizationCode callbackURL : GoString) (res : Response)
    (hok : env.requestOk (issuer ++ utf8 "/token") = true)
    (hres : env.post (issuer ++ utf8 "/token")
      (tokenRequestData clientID codeVerifier authorizationCode callbackURL) = some res)
    (hstatus : res.statusCode ≠ 200) :
    (∀ m, jsonUnmarshal res.body = .ok m →
      getAccessToken env issuer clientID codeVerifier authorizationCode callbackURL =
        ⟨[.httpPost (issuer ++ utf8 "/token") formContentType
            (tokenRequestData clientID codeVerifier authorizationCode callbackURL)],
          .ret (jsonMarshal m, none)⟩) ∧
    (∀ m : JMap, PlainFields m → SortedKeys m → res.body = jsonMarshal (some m) →
      getAccessToken env issuer clientID codeVerifier authorizationCode callbackURL =
        ⟨[.httpPost (issuer ++ utf8 "/token") formContentType
            (tokenRequestData clientID codeVerifier authorizationCode callbackURL)],
          .ret (res.body, none)⟩) := by
  refine ⟨fun m hbody => getAccessToken_remarshals env issuer clientID codeVerifier
    authorizationCode callbackURL res m hok hres hstatus hbody, ?_⟩
  intro m hp hs hb
  have hbody : jsonUnmarshal res.body = .ok (some m) := by
    rw [hb]
    exact jsonUnmarshal_jsonMarshal m hp hs
  rw [getAccessToken_remarshals env issuer clientID codeVerifier authorizationCode callbackURL
    res (some m) hok hres hstatus hbody, hb]

set_option maxRecDepth 100000 in
/-- C7, the example of the specification as an instance of the amended claim: status 400 with
the body `{"error":"invalid_grant"}` returns exactly that text. -/
theorem getAccessToken_error_body_witness :
    (400 : Nat) ≠ 200 ∧
    PlainFields [(utf8 "error", .string (utf8 "invalid_grant"))] ∧
    SortedKeys [(utf8 "error", .string (utf8 "invalid_grant"))] ∧
    utf8 "\x7b\"error\":\"invalid_grant\"\x7d" =
      jsonMarshal (some [(utf8 "error", .string (utf8 "invalid_grant"))]) ∧
    getAccessToken (provider (some ⟨400, utf8 "\x7b\"error\":\"invalid_grant\"\x7d"⟩) none)
        sampleIssuer (utf8 "cid") sampleVerifier (utf8 "XYZ") sampleRedirect =
      ⟨[.httpPost (sampleIssuer ++ utf8 "/token") formContentType
          (tokenRequestData (utf8 "cid") sampleVerifier (utf8 "XYZ") sampleRedirect)],
        .ret (utf8 "\x7b\"error\":\"invalid_grant\"\x7d", none)⟩ :=
  have hp : PlainFields [(utf8 "error", .string (utf8 "invalid_grant"))] := by
    intro p hp
    rw [List.mem_singleton] at hp
    subst hp
    exact ⟨show ∀ b ∈ utf8 "error", htmlSafe b = true by decide, utf8 "invalid_grant", rfl,
      show ∀ b ∈ utf8 "invalid_grant", htmlSafe b = true by decide⟩
  have hs : SortedKeys [(utf8 "error", .string (utf8 "invalid_grant"))] :=
    List.pairwise_singleton _ _
  ⟨by decide, hp, hs, by decide,
    (getAccessToken_error_body
      (provider (some ⟨400, utf8 "\x7b\"error\":\"invalid_grant\"\x7d"⟩) none)
      sampleIssuer (utf8 "cid") sampleVerifier (utf8 "XYZ") sampleRedirect
      ⟨400, utf8 "\x7b\"error\":\"invalid_grant\"\x7d"⟩ rfl rfl (by decide)).2
      [(utf8 "error", .string (utf8 "invalid_grant"))] hp hs (by decide)⟩

set_option maxRecDepth 100000 in
/-- C7 fails as stated: status 400 with the body `{ "error": "invalid_grant" }` returns the
text `{"error":"invalid_grant"}`, which is not the body character for character; and status
502 with a body that is not JSON ends the process instead of returning. -/
theorem getAccessToken_body_not_verbatim :
    (getAccessToken (provider (some ⟨400, utf8 "\x7b \"error\": \"invalid_grant\" \x7d"⟩) none)
        sampleIssuer (utf8 "cid") sampleVerifier (utf8 "XYZ") sampleRedirect).outcome =
      .ret (utf8 "\x7b\"error\":\"invalid_grant\"\x7d", none) ∧
    utf8 "\x7b\"error\":\"invalid_grant\"\x7d" ≠ utf8 "\x7b \"error\": \"invalid_grant\" \x7d" ∧
    (getAccessToken (provider (some ⟨502, utf8 "<html>Bad Gateway</html>"⟩) none)
        sampleIssuer (utf8 "cid") sampleVerifier (utf8 "XYZ") sampleRedirect).outcome =
      .exit 1 := by
  decide

set_option maxRecDepth 100000 in
set_option exponentiation.threshold 2000 in
/-- Numbers and escapes of an error body come back as `json.Marshal` writes a `float64` and a
string, not as received: `1.0` as `1`, `12345678901234567890` as `12345678901234567000`,
`1.50` as `1.5`, `0.0000001` as `1e-7`, the escaped pair `\ud840\udc00` as the character
U+20000 (bytes `F0 A0 80 80`); and a body with a number beyond `float64`, which
`json.Unmarshal` rejects, ends the process. -/
theorem getAccessToken_reserialises_numbers :
    (getAccessToken (provider (some ⟨400, utf8 ("\x7b\"error_code\":1.0," ++
          "\"n\":12345678901234567890,\"s\":\"\\ud840\\udc00\",\"t\":0.0000001,\"u\":1.50\x7d")⟩)
        none) sampleIssuer (utf8 "cid") sampleVerifier (utf8 "XYZ") sampleRedirect).outcome =
      .ret (utf8 "\x7b\"error_code\":1,\"n\":12345678901234567000,\"s\":\"" ++
        [0xF0, 0xA0, 0x80, 0x80] ++ utf8 "\",\"t\":1e-7,\"u\":1.5\x7d", none) ∧
    (getAccessToken (provider (some ⟨400, utf8 "\x7b\"x\":1E400\x7d"⟩) none)
        sampleIssuer (utf8 "cid") sampleVerifier (utf8 "XYZ") sampleRedirect).outcome =
      .exit 1 := by
  decide

/-- The form data of the token request is the text of its five fields. -/
theorem tokenRequestData_text (clientID codeVerifier authorizationCode callbackURL : GoString) :
    tokenRequestData clientID codeVerifier authorizationCode callbackURL =
      queryText
        [(utf8 "grant_type", utf8 "authorization_code"),
         (utf8 "client_id", clientID),
         (utf8 "code_verifier", codeVerifier),
         (utf8 "code", authorizationCode),
         (utf8 "redirect_uri", callbackURL)] := by
  have l1 : utf8 "grant_type=authorization_code&client_id=" =
      utf8 "grant_type" ++ ascii '=' :: (utf8 "authorization_code" ++
        ascii '&' :: (utf8 "client_id" ++ [ascii '='])) := by decide
  have l2 : utf8 "&code_verifier=" = ascii '&' :: (utf8 "code_verifier" ++ [ascii '=']) := by
    decide
  have l3 : utf8 "&code=" = ascii '&' :: (utf8 "code" ++ [ascii '=']) := by decide
  have l4 : utf8 "&redirect_uri=" = ascii '&' :: (utf8 "redirect_uri" ++ [ascii '=']) := by
    decide
  simp only [tokenRequestData, l1, l2, l3, l4, queryText, List.append_assoc, List.cons_append,
    List.nil_append]

set_option maxRecDepth 100000 in
/-- The form data of the token request, for values that need no escaping, parses to exactly
the five fields. -/
theorem tokenRequestData_parses (clientID codeVerifier authorizationCode callbackURL : GoString)
    (h1 : ∀ c ∈ clientID, queryPlain c = true) (h2 : ∀ c ∈ codeVerifier, queryPlain c = true)
    (h3 : ∀ c ∈ authorizationCode, queryPlain c = true)
    (h4 : ∀ c ∈ callbackURL, queryPlain c = true) :
    parseQuery (tokenRequestData clientID codeVerifier authorizationCode callbackURL) =
      (tokenParams clientID codeVerifier authorizationCode callbackURL, false) := by
  have key := parseQuery_queryText
    [(utf8 "grant_type", utf8 "authorization_code", utf8 "authorization_code"),
     (utf8 "client_id", clientID, clientID),
     (utf8 "code_verifier", codeVerifier, codeVerifier),
     (utf8 "code", authorizationCode, authorizationCode),
     (utf8 "redirect_uri", callbackURL, callbackURL)]
    (by
      intro p hp
      simp only [List.mem_cons, List.mem_singleton, List.not_mem_nil, or_false] at hp
      rcases hp with h | h | h | h | h <;> subst h
      · exact GoodParam.ofPlain (by decide) (by decide)
      · exact @GoodParam.ofPlain (utf8 "client_id") clientID (by decide) h1
      · exact @GoodParam.ofPlain (utf8 "code_verifier") codeVerifier (by decide) h2
      · exact @GoodParam.ofPlain (utf8 "code") authorizationCode (by decide) h3
      · exact @GoodParam.ofPlain (utf8 "redirect_uri") callbackURL (by decide) h4)
    (by simp)
    (by simp only [List.map_cons, List.map_nil]; decide)
  rw [tokenRequestData_text]
  simpa [tokenParams] using key

/-- The request of `getAccessToken` for values that need no escaping: for every issuer whose
token URL `http.NewRequest` accepts, and for every clientID, codeVerifier, authorizationCode
and callbackURL that contain none of `&`, `;`, `%` and `+`, exactly one request is sent, a
POST to issuer + "/token" with content type application/x-www-form-urlencoded, whose body
decodes without error to exactly the five fields grant_type=authorization_code, client_id,
code_verifier, code, redirect_uri, each once and with the original value. -/
theorem getAccessToken_request (env : Env)
    (issuer clientID codeVerifier authorizationCode callbackURL : GoString)
    (hok : env.requestOk (issuer ++ utf8 "/token") = true)
    (h1 : ∀ c ∈ clientID, queryPlain c = true) (h2 : ∀ c ∈ codeVerifier, queryPlain c = true)
    (h3 : ∀ c ∈ authorizationCode, queryPlain c = true)
    (h4 : ∀ c ∈ callbackURL, queryPlain c = true) :
    ∃ data,
      (getAccessToken env issuer clientID codeVerifier authorizationCode callbackURL).events =
        [.httpPost (issuer ++ utf8 "/token") (utf8 "application/x-www-form-urlencoded") data] ∧
      parseQuery data = (tokenParams clientID codeVerifier authorizationCode callbackURL, false) :=
  ⟨_, getAccessToken_sends env issuer clientID codeVerifier authorizationCode callbackURL hok,
    tokenRequestData_parses clientID codeVerifier authorizationCode callbackURL h1 h2 h3 h4⟩

set_option maxRecDepth 100000 in
/-- The request of the end-to-end scenario is well formed. -/
theorem getAccessToken_request_witness :
    ∃ data,
      (getAccessToken (provider (some ⟨200, utf8 "\x7b\"access_token\":\"abc\"\x7d"⟩) none)
        sampleIssuer (utf8 "cid") sampleVerifier (utf8 "XYZ") sampleRedirect).events =
        [.httpPost (sampleIssuer ++ utf8 "/token")
          (utf8 "application/x-www-form-urlencoded") data] ∧
      parseQuery data = (tokenParams (utf8 "cid") sampleVerifier (utf8 "XYZ") sampleRedirect,
        false) :=
  getAccessToken_request (provider (some ⟨200, utf8 "\x7b\"access_token\":\"abc\"\x7d"⟩) none)
    sampleIssuer (utf8 "cid") sampleVerifier (utf8 "XYZ") sampleRedirect rfl
    (by decide) (by decide) (by decide) (by decide)

set_option maxRecDepth 100000 in
/-- C8 fails in the code: `getAccessToken` writes its values into the form data unescaped, so
with the authorization code `a&b+c` (the value the handler reads from the callback
`code=a%26b%2Bc`) the body of the POST decodes to `code=a` and a further field `b c`, not to
the five fields with `code=a&b+c`. -/
theorem getAccessToken_code_not_escaped :
    (getAccessToken (provider (some ⟨200, utf8 "\x7b\"access_token\":\"abc\"\x7d"⟩) none)
        sampleIssuer (utf8 "cid") (utf8 "v") (utf8 "a&b+c") (utf8 "r")).events =
      [.httpPost (utf8 "https://idp.example/oauth2/token")
        (utf8 "application/x-www-form-urlencoded")
        (utf8 "grant_type=authorization_code&client_id=cid&code_verifier=v&code=a&b+c&redirect_uri=r")] ∧
    parseQuery
        (utf8 "grant_type=authorization_code&client_id=cid&code_verifier=v&code=a&b+c&redirect_uri=r") =
      ([(utf8 "grant_type", [utf8 "authorization_code"]), (utf8 "client_id", [utf8 "cid"]),
        (utf8 "code_verifier", [utf8 "v"]), (utf8 "code", [utf8 "a"]), (utf8 "b c", [[]]),
        (utf8 "redirect_uri", [utf8 "r"])], false) ∧
    (parseQuery
        (utf8 "grant_type=authorization_code&client_id=cid&code_verifier=v&code=a&b+c&redirect_uri=r")).1 ≠
      tokenParams (utf8 "cid") (utf8 "v") (utf8 "a&b+c") (utf8 "r") := by
  decide

/-! ## `getUserInfo` -/

/-- On every status other than 200, `getUserInfo` returns the text `null`, whatever the
body: it marshals the map before anything was unmarshalled into it. -/
theorem getUserInfo_error_status (env : Env) (issuer accessToken : GoString) (res : Response)
    (hok : env.requestOk (issuer ++ utf8 "/userinfo") = true)
    (hres : env.get (issuer ++ utf8 "/userinfo") (utf8 "Bearer " ++ accessToken) = some res)
    (hstatus : res.statusCode ≠ 200) :
    getUserInfo env issuer accessToken =
      ⟨[.httpGet (issuer ++ utf8 "/userinfo") (utf8 "Bearer " ++ accessToken)],
        .ret (utf8 "null", none)⟩ := by
  unfold getUserInfo
  simp only [hok, Bool.true_eq_false, if_false, hres, hstatus, ne_eq, not_false_eq_true,
    if_true]
  rfl

/-- On status 200 with a body `json.Unmarshal` accepts, `getUserInfo` returns the indented
text of the parsed map. -/
theorem getUserInfo_profile (env : Env) (issuer accessToken body : GoString) (m : Option JMap)
    (hok : env.requestOk (issuer ++ utf8 "/userinfo") = true)
    (hres : env.get (issuer ++ utf8 "/userinfo") (utf8 "Bearer " ++ accessToken) =
      some ⟨200, body⟩)
    (hbody : jsonUnmarshal body = .ok m) :
    getUserInfo env issuer accessToken =
      ⟨[.httpGet (issuer ++ utf8 "/userinfo") (utf8 "Bearer " ++ accessToken)],
        .ret (jsonMarshalIndent m, none)⟩ := by
  unfold getUserInfo
  simp [hok, hres, hbody]

theorem getUserInfo_events (env : Env) (issuer accessToken : GoString) :
    (getUserInfo env issuer accessToken).events = [] ∨
    (getUserInfo env issuer accessToken).events =
      [.httpGet (issuer ++ utf8 "/userinfo") (utf8 "Bearer " ++ accessToken)] := by
  unfold getUserInfo
  simp only
  split
  · exact Or.inl rfl
  · right
    split
    · rfl
    · split
      · rfl
      · split <;> rfl

set_option maxRecDepth 100000 in
/-- C9, first part, fails in the code: status 401 with the body `{"error":"invalid_token"}`
makes `getUserInfo` return the text `null`, not the provider's body; the second part holds on
the example: status 200 with `{"sub":"u1","name":"Ann"}` returns the indented text, which
parses back to the same object. -/
theorem getUserInfo_error_body_lost :
    getUserInfo (provider none (some ⟨401, utf8 "\x7b\"error\":\"invalid_token\"\x7d"⟩))
        sampleIssuer (utf8 "abc") =
      ⟨[.httpGet (utf8 "https://idp.example/oauth2/userinfo") (utf8 "Bearer abc")],
        .ret (utf8 "null", none)⟩ ∧
    getUserInfo (provider none (some ⟨200, utf8 "\x7b\"sub\":\"u1\",\"name\":\"Ann\"\x7d"⟩))
        sampleIssuer (utf8 "abc") =
      ⟨[.httpGet (utf8 "https://idp.example/oauth2/userinfo") (utf8 "Bearer abc")],
        .ret (utf8 "\x7b\n  \"name\": \"Ann\",\n  \"sub\": \"u1\"\n\x7d", none)⟩ ∧
    jsonUnmarshal (utf8 "\x7b\n  \"name\": \"Ann\",\n  \"sub\": \"u1\"\n\x7d") =
      jsonUnmarshal (utf8 "\x7b\"sub\":\"u1\",\"name\":\"Ann\"\x7d") :=
  ⟨by decide, by decide, rfl⟩

/-! ## The callback handler -/

/-- A request without `code`: the handler ends the process at `log.Fatal`; it has written
nothing to the browser and has not called `cleanup`. -/
theorem handler_no_code (env : Env) (g : Globals) (clientid issuer redirecturi q : GoString)
    (h : valuesGet (parseQuery q).1 (utf8 "code") = []) :
    handler env g clientid issuer redirecturi q = ⟨[], .exit 1⟩ := by
  unfold handler
  simp [h]

/-- The handler reads nothing of the request but `code`. -/
theorem handler_depends_on_code (env : Env) (g : Globals)
    (clientid issuer redirecturi q1 q2 : GoString)
    (h : valuesGet (parseQuery q1).1 (utf8 "code") = valuesGet (parseQuery q2).1 (utf8 "code")) :
    handler env g clientid issuer redirecturi q1 = handler env g clientid issuer redirecturi q2 := by
  unfold handler
  simp only [h]

/-- With a `code`, the handler starts with the events of the token exchange made with that
code and the stored verifier. -/
theorem handler_exchange_prefix (env : Env) (g : Globals)
    (clientid issuer redirecturi q : GoString)
    (h : valuesGet (parseQuery q).1 (utf8 "code") ≠ []) :
    ∃ rest, (handler env g clientid issuer redirecturi q).events =
      (getAccessToken env issuer clientid g.codeVerifier
        (valuesGet (parseQuery q).1 (utf8 "code")) redirecturi).events ++ rest := by
  unfold handler
  simp only [h, if_false]
  generalize getAccessToken env issuer clientid g.codeVerifier
    (valuesGet (parseQuery q).1 (utf8 "code")) redirecturi = ra
  obtain ⟨ev1, o⟩ := ra
  cases o with
  | exit c => exact ⟨[], by simp⟩
  | panic => exact ⟨[], by simp⟩
  | ret p =>
    obtain ⟨token, err⟩ := p
    cases err with
    | some e => exact ⟨[], by simp⟩
    | none =>
      simp only
      generalize getUserInfo env issuer token = ru
      obtain ⟨ev3, o3⟩ := ru
      cases o3 with
      | exit c => exact ⟨_, List.append_assoc _ _ _⟩
      | panic => exact ⟨_, List.append_assoc _ _ _⟩
      | ret p3 =>
        exact ⟨[Event.println (utf8 "Access Token:"), Event.println token] ++ ev3 ++
          [Event.println (utf8 "User info:"), Event.println p3.1, Event.respond successPage,
            Event.println (utf8 "Successfully authenticated.")] ++ cleanup,
          by simp only [List.append_assoc]⟩

/-- Every event of a handler run keeps the stored verifier: a POST it sends is a token
request made with `g.codeVerifier`. -/
theorem handler_keepsVerifier (env : Env) (g : Globals)
    (clientid issuer redirecturi q : GoString) :
    ∀ e ∈ (handler env g clientid issuer redirecturi q).events,
      e.keepsVerifier clientid g.codeVerifier redirecturi := by
  unfold handler
  by_cases h : valuesGet (parseQuery q).1 (utf8 "code") = []
  · simp [h]
  · simp only [h, if_false]
    have hA := getAccessToken_events env issuer clientid g.codeVerifier
      (valuesGet (parseQuery q).1 (utf8 "code")) redirecturi
    generalize getAccessToken env issuer clientid g.codeVerifier
      (valuesGet (parseQuery q).1 (utf8 "code")) redirecturi = ra at hA
    obtain ⟨ev1, o⟩ := ra
    have h1 : ∀ e ∈ ev1, e.keepsVerifier clientid g.codeVerifier redirecturi := by
      intro e he
      rcases hA with hA | hA
      · simp only at hA; rw [hA] at he; cases he
      · simp only at hA
        rw [hA, List.mem_singleton] at he
        subst he
        exact ⟨_, rfl⟩
    cases o with
    | exit c => exact h1
    | panic => exact h1
    | ret p =>
      obtain ⟨token, err⟩ := p
      cases err with
      | some e => exact h1
      | none =>
        simp only
        have hU := getUserInfo_events env issuer token
        generalize getUserInfo env issuer token = ru at hU
        obtain ⟨ev3, o3⟩ := ru
        have h3 : ∀ e ∈ ev3, e.keepsVerifier clientid g.codeVerifier redirecturi := by
          intro e he
          rcases hU with hU | hU
          · simp only at hU; rw [hU] at he; cases he
          · simp only at hU
            rw [hU, List.mem_singleton] at he
            subst he
            trivial
        cases o3 with
        | exit c =>
          intro e he
          simp only [List.mem_append, List.mem_cons, List.mem_singleton, List.not_mem_nil,
            or_false] at he
          rcases he with (he | he | he) | he
          · exact h1 e he
          · subst he; trivial
          · subst he; trivial
          · exact h3 e he
        | panic =>
          intro e he
          simp only [List.mem_append, List.mem_cons, List.mem_singleton, List.not_mem_nil,
            or_false] at he
          rcases he with (he | he | he) | he
          · exact h1 e he
          · subst he; trivial
          · subst he; trivial
          · exact h3 e he
        | ret p3 =>
          intro e he
          simp only [cleanup, List.mem_append, List.mem_cons, List.mem_singleton,
            List.not_mem_nil, or_false] at he
          rcases he with (((he | he | he) | he) | he | he | he | he) | he
          · exact h1 e he
          · subst he; trivial
          · subst he; trivial
          · exact h3 e he
          all_goals (subst he; trivial)

/-- Every event of the serving loop keeps the stored verifier. -/
theorem serve_keepsVerifier (env : Env) (g : Globals) (clientid issuer redirecturi : GoString)
    (requests : List GoString) :
    ∀ e ∈ (serve env g clientid issuer redirecturi requests).1,
      e.keepsVerifier clientid g.codeVerifier redirecturi := by
  induction requests with
  | nil => intro e he; cases he
  | cons q later ih =>
    have hq := handler_keepsVerifier env g clientid issuer redirecturi q
    unfold serve
    generalize handler env g clientid issuer redirecturi q = rh at hq
    obtain ⟨ev, o⟩ := rh
    cases o with
    | exit c => exact hq
    | panic =>
      intro e he
      rcases List.mem_append.1 he with he | he
      · exact hq e he
      · exact ih e he
    | ret u =>
      simp only
      split
      · exact hq
      · intro e he
        rcases List.mem_append.1 he with he | he
        · exact hq e he
        · exact ih e he

/-! ## `executeAuthFlow` -/

/-- The body of `executeAuthFlow` once the pair and the authorization URL are named. -/
theorem flow_unfold (sys : System) (env : Env)
    (clientid issuer redirecturi : GoString) (requests : List GoString)
    (pair : GoString × GoString) (hpair : generateCodeChallenge sys.r1 sys.r2 = pair)
    (url st : GoString)
    (hb : buildAuthorizeUrl sys.r3 clientid issuer redirecturi pair.1 scopes = .ret (url, st)) :
    executeAuthFlow sys env clientid issuer redirecturi requests =
      (let g2 : Globals := ⟨pair.1, pair.2, st, url, []⟩
       match sys.port redirecturi with
       | none => ⟨[], .exited 1, g2⟩
       | some port =>
         if sys.listenOk (ascii ':' :: port) = false then ⟨[], .exited 1, g2⟩
         else if sys.openOk url = false then ⟨[.openBrowser url], .exited 1, g2⟩
         else
           ⟨.openBrowser url :: (serve env g2 clientid issuer redirecturi requests).1,
             (serve env g2 clientid issuer redirecturi requests).2, g2⟩) := by
  have hopen : ∀ u, openAuthUrl sys u =
      if sys.openOk u = false then ⟨[.openBrowser u], .exit 1⟩
      else ⟨[.openBrowser u], .ret ()⟩ := fun _ => rfl
  unfold executeAuthFlow
  rw [hpair]
  dsimp only [Globals.initial]
  rw [hb]
  dsimp only
  cases sys.port redirecturi with
  | none => rfl
  | some port =>
    dsimp only
    cases sys.listenOk (ascii ':' :: port) with
    | false => rfl
    | true =>
      rw [hopen]
      cases sys.openOk url <;> rfl

/-- C5: in every run of `executeAuthFlow`, whatever the random bytes, the provider and the
requests that arrive, every token request sent carries as `code_verifier` the verifier `v`
returned by the one call of `generateCodeChallenge`; every URL opened in the browser is the
one `buildAuthorizeUrl` makes with the challenge `base64url_nopad(SHA256(v))`; and the
package variables hold that pair at the end of the run. -/
theorem executeAuthFlow_pkce_pair (sys : System) (env : Env)
    (clientid issuer redirecturi : GoString) (requests : List GoString) :
    (∀ url ct data, Event.httpPost url ct data ∈
        (executeAuthFlow sys env clientid issuer redirecturi requests).events →
      ∃ code, data = tokenRequestData clientid (generateCodeChallenge sys.r1 sys.r2).2 code
        redirecturi) ∧
    (∀ url, Event.openBrowser url ∈
        (executeAuthFlow sys env clientid issuer redirecturi requests).events →
      buildAuthorizeUrl sys.r3 clientid issuer redirecturi
        (base64urlNoPad (sha256 (generateCodeChallenge sys.r1 sys.r2).2)) scopes =
        .ret (url, uuidString (uuidNew sys.r3))) ∧
    (executeAuthFlow sys env clientid issuer redirecturi requests).globals.codeVerifier =
      (generateCodeChallenge sys.r1 sys.r2).2 ∧
    (executeAuthFlow sys env clientid issuer redirecturi requests).globals.codeChallenge =
      base64urlNoPad (sha256 (generateCodeChallenge sys.r1 sys.r2).2) := by
  have hch := generateCodeChallenge_spec_encoding sys.r1 sys.r2
  have hb := buildAuthorizeUrl_text sys.r3 clientid issuer redirecturi
    (generateCodeChallenge sys.r1 sys.r2).1 (utf8 "openid") [utf8 "profile", utf8 "email"]
  have hscopes : utf8 "openid" :: [utf8 "profile", utf8 "email"] = scopes := rfl
  rw [hscopes] at hb
  rw [← hch, flow_unfold sys env clientid issuer redirecturi requests _ rfl _ _ hb, hb]
  generalize issuer ++ utf8 "/authorize?" ++ queryText _ = url
  generalize generateCodeChallenge sys.r1 sys.r2 = pair
  clear hb hch hscopes
  cases sys.port redirecturi with
  | none =>
    refine ⟨?_, ?_, rfl, rfl⟩
    · intro u ct data h; cases h
    · intro u h; cases h
  | some port =>
    dsimp only
    cases sys.listenOk (ascii ':' :: port) with
    | false =>
      refine ⟨?_, ?_, rfl, rfl⟩
      · intro u ct data h; cases h
      · intro u h; cases h
    | true =>
      cases sys.openOk url with
      | false =>
        refine ⟨?_, ?_, rfl, rfl⟩
        · intro u ct data h
          have h2 := List.eq_of_mem_singleton h
          cases h2
        · intro u h
          have h2 := List.eq_of_mem_singleton h
          injection h2 with h3
          rw [h3]
      | true =>
        refine ⟨?_, ?_, rfl, rfl⟩
        · intro u ct data h
          rcases List.mem_cons.1 h with h | h
          · cases h
          · exact serve_keepsVerifier env _ clientid issuer redirecturi requests _ h
        · intro u h
          rcases List.mem_cons.1 h with h | h
          · injection h with h3
            rw [h3]
          · exact (serve_keepsVerifier env _ clientid issuer redirecturi requests _ h).elim

set_option maxRecDepth 100000 in
/-- C5 on the end-to-end scenario of the specification: the callback `code=XYZ` with the
issued state leads to one token request to `https://idp.example/oauth2/token`, and that
request carries `code=XYZ` and the verifier drawn at the start. -/
theorem executeAuthFlow_pkce_pair_witness :
    Event.httpPost (utf8 "https://idp.example/oauth2/token") formContentType
        (tokenRequestData (utf8 "cid") sampleVerifier (utf8 "XYZ") sampleRedirect) ∈
      (executeAuthFlow sampleSystem
        (provider (some ⟨200, utf8 "\x7b\"access_token\":\"abc\"\x7d"⟩) (some ⟨200, utf8 "\x7b\"sub\":\"u1\"\x7d"⟩))
        (utf8 "cid") sampleIssuer sampleRedirect
        [utf8 "code=XYZ&state=00000000-0000-4000-8000-000000000000"]).events ∧
    ∃ code, tokenRequestData (utf8 "cid") sampleVerifier (utf8 "XYZ") sampleRedirect =
      tokenRequestData (utf8 "cid") (generateCodeChallenge sampleSystem.r1 sampleSystem.r2).2 code
        sampleRedirect :=
  ⟨by decide,
    (executeAuthFlow_pkce_pair sampleSystem
      (provider (some ⟨200, utf8 "\x7b\"access_token\":\"abc\"\x7d"⟩) (some ⟨200, utf8 "\x7b\"sub\":\"u1\"\x7d"⟩))
      (utf8 "cid") sampleIssuer sampleRedirect
      [utf8 "code=XYZ&state=00000000-0000-4000-8000-000000000000"]).1
      (utf8 "https://idp.example/oauth2/token") formContentType
      (tokenRequestData (utf8 "cid") sampleVerifier (utf8 "XYZ") sampleRedirect) (by decide)⟩

/-! ## The `state` of the callback -/

/-- C1 (amended): the handler installed by `executeAuthFlow` never compares the `state` of the
callback with the state issued by `buildAuthorizeUrl`. For every callback request with a
non-empty `code`, whatever its `state`, once `http.NewRequest` accepts the token URL the
handler invokes `getAccessToken` with that code and the stored verifier (the token POST is
its first event) and no StateMismatch error is raised; and a request with the same `code` and
any other `state` is handled in exactly the same way. -/
theorem handler_state_unchecked (env : Env) (g : Globals)
    (clientid issuer redirecturi q : GoString)
    (hcode : valuesGet (parseQuery q).1 (utf8 "code") ≠ [])
    (hok : env.requestOk (issuer ++ utf8 "/token") = true) :
    (∃ rest, (handler env g clientid issuer redirecturi q).events =
      Event.httpPost (issuer ++ utf8 "/token") formContentType
        (tokenRequestData clientid g.codeVerifier (valuesGet (parseQuery q).1 (utf8 "code"))
          redirecturi) :: rest) ∧
    (∀ q2, valuesGet (parseQuery q2).1 (utf8 "code") = valuesGet (parseQuery q).1 (utf8 "code") →
      handler env g clientid issuer redirecturi q2 = handler env g clientid issuer redirecturi q) := by
  refine ⟨?_, fun q2 h => handler_depends_on_code env g clientid issuer redirecturi q2 q h⟩
  obtain ⟨rest, hrest⟩ := handler_exchange_prefix env g clientid issuer redirecturi q hcode
  rw [getAccessToken_sends env issuer clientid g.codeVerifier _ redirecturi hok] at hrest
  exact ⟨rest, hrest⟩

set_option maxRecDepth 100000 in
/-- C1, an instance of the amended claim: a callback with `code=XYZ` and a forged state. -/
theorem handler_state_unchecked_witness :
    valuesGet (parseQuery (utf8 "code=XYZ&state=forged")).1 (utf8 "state") ≠ sampleGlobals.state ∧
    ((∃ rest, (handler (provider (some ⟨200, utf8 "\x7b\"access_token\":\"abc\"\x7d"⟩) none)
        sampleGlobals (utf8 "cid") sampleIssuer sampleRedirect
        (utf8 "code=XYZ&state=forged")).events =
      Event.httpPost (sampleIssuer ++ utf8 "/token") formContentType
        (tokenRequestData (utf8 "cid") sampleGlobals.codeVerifier
          (valuesGet (parseQuery (utf8 "code=XYZ&state=forged")).1 (utf8 "code"))
          sampleRedirect) :: rest) ∧
    (∀ q2, valuesGet (parseQuery q2).1 (utf8 "code") =
        valuesGet (parseQuery (utf8 "code=XYZ&state=forged")).1 (utf8 "code") →
      handler (provider (some ⟨200, utf8 "\x7b\"access_token\":\"abc\"\x7d"⟩) none)
        sampleGlobals (utf8 "cid") sampleIssuer sampleRedirect q2 =
      handler (provider (some ⟨200, utf8 "\x7b\"access_token\":\"abc\"\x7d"⟩) none)
        sampleGlobals (utf8 "cid") sampleIssuer sampleRedirect (utf8 "code=XYZ&state=forged"))) :=
  ⟨by decide,
    handler_state_unchecked (provider (some ⟨200, utf8 "\x7b\"access_token\":\"abc\"\x7d"⟩) none)
      sampleGlobals (utf8 "cid") sampleIssuer sampleRedirect (utf8 "code=XYZ&state=forged")
      (by decide) rfl⟩

set_option maxRecDepth 100000 in
/-- C1 fails as stated: in the run of `executeAuthFlow` that issues the state
`00000000-0000-4000-8000-000000000000`, the callback `code=XYZ&state=forged` makes the handler
send the token request with `code=XYZ`, fetch the profile and close the server as after a
genuine callback: the token exchange is invoked and the flow does not fail. -/
theorem executeAuthFlow_forged_state_reaches_exchange :
    (executeAuthFlow sampleSystem
        (provider (some ⟨200, utf8 "\x7b\"access_token\":\"abc\"\x7d"⟩) (some ⟨200, utf8 "\x7b\"sub\":\"u1\"\x7d"⟩))
        (utf8 "cid") sampleIssuer sampleRedirect [utf8 "code=XYZ&state=forged"]).globals.state =
      utf8 "00000000-0000-4000-8000-000000000000" ∧
    valuesGet (parseQuery (utf8 "code=XYZ&state=forged")).1 (utf8 "state") = utf8 "forged" ∧
    utf8 "forged" ≠ utf8 "00000000-0000-4000-8000-000000000000" ∧
    (executeAuthFlow sampleSystem
        (provider (some ⟨200, utf8 "\x7b\"access_token\":\"abc\"\x7d"⟩) (some ⟨200, utf8 "\x7b\"sub\":\"u1\"\x7d"⟩))
        (utf8 "cid") sampleIssuer sampleRedirect [utf8 "code=XYZ&state=forged"]).events.tail =
      [.httpPost (utf8 "https://idp.example/oauth2/token") formContentType
          (tokenRequestData (utf8 "cid") sampleVerifier (utf8 "XYZ") sampleRedirect),
        .println (utf8 "Access Token:"), .println (utf8 "abc"),
        .httpGet (utf8 "https://idp.example/oauth2/userinfo") (utf8 "Bearer abc"),
        .println (utf8 "User info:"), .println (utf8 "\x7b\n  \"sub\": \"u1\"\n\x7d"),
        .respond successPage, .println (utf8 "Successfully authenticated."), .serverClose] ∧
    (executeAuthFlow sampleSystem
        (provider (some ⟨200, utf8 "\x7b\"access_token\":\"abc\"\x7d"⟩) (some ⟨200, utf8 "\x7b\"sub\":\"u1\"\x7d"⟩))
        (utf8 "cid") sampleIssuer sampleRedirect [utf8 "code=XYZ&state=forged"]).final =
      .closed := by
  decide

/-! ## Closing the server -/

/-- On the success path the handler writes the page to the browser and then calls `cleanup`,
once, as its last event. -/
theorem handler_success (env : Env) (g : Globals) (clientid issuer redirecturi q : GoString)
    (ev1 ev3 : List Event) (token userInfo : GoString) (err : Option GoError)
    (hcode : valuesGet (parseQuery q).1 (utf8 "code") ≠ [])
    (hA : getAccessToken env issuer clientid g.codeVerifier
      (valuesGet (parseQuery q).1 (utf8 "code")) redirecturi = ⟨ev1, .ret (token, none)⟩)
    (hU : getUserInfo env issuer token = ⟨ev3, .ret (userInfo, err)⟩) :
    handler env g clientid issuer redirecturi q =
      ⟨ev1 ++ [.println (utf8 "Access Token:"), .println token] ++ ev3 ++
        [.println (utf8 "User info:"), .println userInfo, .respond successPage,
          .println (utf8 "Successfully authenticated.")] ++ cleanup, .ret ()⟩ := by
  unfold handler
  simp only [hcode, if_false, hA, hU]

set_option maxRecDepth 100000 in
/-- C10 fails in the code on the path without a code: the callback `state=abc` makes the
handler end the process with status 1 at `log.Fatal`, with no event at all, so nothing is
written to the browser and `cleanup` is never called; the run of `executeAuthFlow` ends
there, its only event the opening of the browser. On the path where the provider answers 200
without `access_token`, the handler panics after the POST, `cleanup` is not called either and
the server goes on serving. -/
theorem handler_no_code_skips_cleanup :
    handler (provider none none) sampleGlobals (utf8 "cid") sampleIssuer sampleRedirect
        (utf8 "state=abc") = ⟨[], .exit 1⟩ ∧
    (executeAuthFlow sampleSystem (provider none none) (utf8 "cid") sampleIssuer sampleRedirect
        [utf8 "state=abc"]).final = .exited 1 ∧
    (executeAuthFlow sampleSystem (provider none none) (utf8 "cid") sampleIssuer sampleRedirect
        [utf8 "state=abc"]).events.tail = [] ∧
    handler (provider (some ⟨200, utf8 "\x7b\"error\":\"x\"\x7d"⟩) none) sampleGlobals (utf8 "cid")
        sampleIssuer sampleRedirect (utf8 "code=XYZ") =
      ⟨[.httpPost (utf8 "https://idp.example/oauth2/token") formContentType
          (tokenRequestData (utf8 "cid") sampleVerifier (utf8 "XYZ") sampleRedirect)], .panic⟩ ∧
    (executeAuthFlow sampleSystem (provider (some ⟨200, utf8 "\x7b\"error\":\"x\"\x7d"⟩) none)
        (utf8 "cid") sampleIssuer sampleRedirect [utf8 "code=XYZ"]).final = .serving := by
  decide
end OktaPkce
